import Mathlib

/-!
Verification of the offline PSBT signing core of the firma repository,
a shallow embedding of `src/lib/src/offline/sign.rs`.

The embedding mirrors the Rust source.  Cryptographic and serialization
primitives consumed from the external `bitcoin` / `secp256k1` libraries
(spec, section 6: "treats these as trusted") are collected in a `Prims`
record over which the whole development is parameterized: every theorem
holds for every instantiation of those primitives.  Rust `HashMap`s are
represented as association lists with replace-or-append insertion;
`HashSet` as a list with member-test insertion.  Rust `Result` together
with the possibility of a `panic!` / `expect` crash is represented by
the three-valued `PResult`; the in-place mutation of `self.psbt` is
explicit state passing, so a failing call still returns the mutated
state, exactly like the Rust value left behind in the signer struct.
-/

namespace Firma

/-- `bitcoin::Network` as matched by the source (`Bitcoin`, `Testnet`, `Regtest`). -/
inductive Network where
  | bitcoin
  | testnet
  | regtest
deriving DecidableEq, Repr

/-- BIP32 extended private key (`bitcoin::util::bip32::ExtendedPrivKey`).
The secret material and chain code are abstracted into the carrier `key`;
the `network` field is the one the source inspects directly. -/
structure XPrv where
  network : Network
  key : Nat
deriving DecidableEq, Repr

/-- A script is its byte list (`bitcoin::Script`). -/
abbrev Script := List Nat

/-- `bitcoin::OutPoint`: reference to a previous transaction output. -/
structure OutPoint where
  txid : Nat
  vout : Nat
deriving DecidableEq, Repr

/-- `bitcoin::TxOut`. -/
structure TxOut where
  value : Nat
  script_pubkey : Script
deriving DecidableEq, Repr

/-- `bitcoin::TxIn` (the fields the signing core reads). -/
structure TxIn where
  previous_output : OutPoint
deriving DecidableEq, Repr

/-- `bitcoin::Transaction`. -/
structure Transaction where
  version : Nat
  lock_time : Nat
  input : List TxIn
  output : List TxOut
deriving DecidableEq, Repr

/-- External primitives (hashing, secp256k1, BIP143/legacy sighash, BIP32
single-step derivation, ECDSA signing).  These are library code outside the
repository; the signer only ever feeds their outputs into equality tests,
map keys and produced signature bytes, so the development is parameterized
over them. -/
structure Prims where
  /-- `Transaction::txid()`: double-SHA256 of the serialized transaction. -/
  txid : Transaction → Nat
  /-- `HASH160 = RIPEMD160 ∘ SHA256` of a byte string. -/
  hash160 : List Nat → List Nat
  /-- SHA256 of a byte string (used by `Script::to_v0_p2wsh`). -/
  sha256 : List Nat → List Nat
  /-- `ExtendedPrivKey::ckd_priv`: one BIP32 child-key derivation step. -/
  ckd : XPrv → Nat → XPrv
  /-- compressed public key of an extended private key
  (`ExtendedPubKey::from_private(..).public_key`, also
  `secp256k1::PublicKey::from_secret_key`). -/
  pubOf : XPrv → List Nat
  /-- `ExtendedPrivKey::fingerprint`. -/
  fingerprintOf : XPrv → Nat
  /-- `Transaction::signature_hash(input_index, script, sighash_u32)`:
  the legacy sighash digest. -/
  sighashLegacy : Transaction → Nat → Script → Nat → Nat
  /-- `SighashComponents::sighash_all(txin, script, value)`: the BIP143
  SIGHASH_ALL digest. -/
  sighashAllSegwit : Transaction → TxIn → Script → Nat → Nat
  /-- `secp.sign(msg, key).serialize_der()`: DER bytes of the ECDSA
  signature of a 32-byte digest under the key of the given node. -/
  ecdsaSign : Nat → XPrv → List Nat

/-- `ExtendedPrivKey::derive_priv` over a derivation path: the left fold of
single-step child derivations along the path, exactly as the library
iterates `ckd_priv` over the path elements. -/
def derivePriv (p : Prims) (x : XPrv) (path : List Nat) : XPrv :=
  path.foldl p.ckd x

/-- Rust `Result` extended with the crash outcome of `expect` / indexing
panics, so that "returns an error" and "panics" are distinguishable. -/
inductive PResult (α : Type) where
  | ok (a : α)
  | err (msg : String)
  | panic (msg : String)
deriving DecidableEq, Repr

/-- First-match lookup in an association list (`HashMap::get`). -/
def alistLookup {κ α : Type} [DecidableEq κ] (k : κ) : List (κ × α) → Option α
  | [] => none
  | (k', v) :: rest => if k' = k then some v else alistLookup k rest

/-- `HashMap::insert`: replace the value at an existing key in place,
append a missing key at the end. -/
def alistInsert {κ α : Type} [DecidableEq κ] (k : κ) (v : α) :
    List (κ × α) → List (κ × α)
  | [] => [(k, v)]
  | (k', v') :: rest =>
    if k' = k then (k, v) :: rest else (k', v') :: alistInsert k v rest

/-- `HashSet::insert` on a list-as-set. -/
def insertSet (x : Nat) (l : List Nat) : List Nat :=
  if x ∈ l then l else l ++ [x]

/-- `Builder::push_slice` opcode encoding of a data push. -/
def pushSlice (data : List Nat) : List Nat :=
  if data.length < 76 then data.length :: data
  else if data.length < 256 then 76 :: data.length :: data
  else if data.length < 65536 then
    77 :: data.length % 256 :: data.length / 256 :: data
  else
    78 :: data.length % 256 :: data.length / 256 % 256 ::
      data.length / 65536 % 256 :: data.length / 16777216 :: data

/-- `Script::to_p2sh`: `OP_HASH160 <hash160(script)> OP_EQUAL`. -/
def toP2sh (p : Prims) (s : Script) : Script :=
  169 :: pushSlice (p.hash160 s) ++ [135]

/-- `Script::to_v0_p2wsh`: `OP_0 <sha256(script)>`. -/
def toV0P2wsh (p : Prims) (s : Script) : Script :=
  0 :: pushSlice (p.sha256 s)

/-- `Script::is_v0_p2wpkh`: 22 bytes, `OP_0 OP_PUSHBYTES_20 <20 bytes>`. -/
def isV0P2wpkh (s : Script) : Bool :=
  s.length = 22 && s.getD 0 0 = 0 && s.getD 1 0 = 20

/-- `Script::is_p2pkh`:
25 bytes, `OP_DUP OP_HASH160 OP_PUSHBYTES_20 <20> OP_EQUALVERIFY OP_CHECKSIG`. -/
def isP2pkh (s : Script) : Bool :=
  s.length = 25 && s.getD 0 0 = 118 && s.getD 1 0 = 169 && s.getD 2 0 = 20 &&
    s.getD 23 0 = 136 && s.getD 24 0 = 172

/-- `to_p2pkh` of `sign.rs`:
`OP_DUP OP_HASH160 <push pubkey_hash> OP_EQUALVERIFY OP_CHECKSIG`. -/
def to_p2pkh (pubkey_hash : List Nat) : Script :=
  118 :: 169 :: pushSlice pubkey_hash ++ [136, 172]

/-- Modelled from the spec: `extract_pub_keys` (repository code referenced by
`sign.rs` but not under the provided sources): "extract every public-key push
opcode (33-byte compressed points appearing as direct data pushes) from that
script".  Walks the instruction stream; direct pushes of exactly 33 bytes
whose leading byte is a compressed-point tag (2 or 3) are collected.
The `fuel` argument is the script length, enough for the structural walk. -/
def extractPubKeysFuel : Nat → Script → List (List Nat)
  | 0, _ => []
  | _, [] => []
  | fuel + 1, b :: rest =>
    if 1 ≤ b ∧ b ≤ 75 then
      let dat := rest.take b
      let rest' := rest.drop b
      if b = 33 ∧ dat.length = 33 ∧ (dat.getD 0 0 = 2 ∨ dat.getD 0 0 = 3) then
        dat :: extractPubKeysFuel fuel rest'
      else
        extractPubKeysFuel fuel rest'
    else
      extractPubKeysFuel fuel rest

/-- Modelled from the spec: see `extractPubKeysFuel`. -/
def extractPubKeys (s : Script) : List (List Nat) :=
  extractPubKeysFuel s.length s

/-- A `hd_keypaths` entry: compressed public key bytes mapped to
(master fingerprint, derivation path). -/
abbrev HdEntry := List Nat × Nat × List Nat

/-- PSBT per-input record (`bitcoin::util::psbt::Input`), the fields the
signer reads or writes.  `sighash_type` stores the `as_u32` value of the
`SigHashType`. -/
structure Input where
  non_witness_utxo : Option Transaction := none
  witness_utxo : Option TxOut := none
  redeem_script : Option Script := none
  witness_script : Option Script := none
  sighash_type : Option Nat := none
  partial_sigs : List (List Nat × List Nat) := []
  hd_keypaths : List HdEntry := []
deriving DecidableEq, Repr

/-- PSBT per-output record (the fields the deducer reads or writes). -/
structure Output where
  witness_script : Option Script := none
  hd_keypaths : List HdEntry := []
deriving DecidableEq, Repr

/-- PSBT global section. -/
structure Global where
  unsigned_tx : Transaction
deriving DecidableEq, Repr

/-- `PartiallySignedTransaction`. -/
structure PSBT where
  global : Global
  inputs : List Input
  outputs : List Output
deriving DecidableEq, Repr

/-- `SignResult` of `sign.rs`. -/
structure SignResult where
  signed : Bool
  added_paths : Bool
deriving DecidableEq, Repr

/-- The `PSBTSigner` struct (the file-handling fields `psbt_json` and
`psbt_file`, always `None` on the `new` path, are omitted; the secp context
carries no data). -/
structure PSBTSigner where
  psbt : PSBT
  xprv : XPrv
  network : Network
  derivations : Nat
  signed_by : List Nat
deriving DecidableEq, Repr

/-- `PSBTSigner::new`: the network gate, then construction. -/
def PSBTSigner.new (psbt : PSBT) (xprv : XPrv) (network : Network)
    (derivations : Nat) : PResult PSBTSigner :=
  let exception := network = Network.regtest ∧ xprv.network = Network.testnet
  if ¬(network = xprv.network ∨ exception) then
    .err ("Master key network is different from the network passed through cli")
  else
    .ok { psbt := psbt, xprv := xprv, network := network,
          derivations := derivations, signed_by := [] }

/-- The body of the `for (pubkey, (fing, child)) in input.hd_keypaths` loop
of `PSBTSigner::sign_input`, acting on the pair
(partial_sigs of the input, signed_by of the signer). -/
def signEntry (p : Prims) (xprv : XPrv) (tx : Transaction) (isWitness : Bool)
    (wutxo : Option TxOut) (sighashT : Option Nat) (script : Script)
    (input_index : Nat) (myFing : Nat)
    (st : List (List Nat × List Nat) × List Nat) (e : HdEntry) :
    PResult (List (List Nat × List Nat) × List Nat) :=
  let (pubkey, fing, child) := e
  if fing ≠ myFing then
    .ok st
  else
    let privkey := derivePriv p xprv child
    let derived_pubkey := p.pubOf privkey
    if pubkey ≠ derived_pubkey then
      .err ("pubkey derived and expected differs even if fingerprint matches!")
    else if isWitness then
      match wutxo with
      | none => .err ("witness_utxo is empty")
      | some w =>
        match tx.input.get? input_index with
        | none => .panic ("index out of bounds")
        | some txin =>
          let hash := p.sighashAllSegwit tx txin script w.value
          let sighash := sighashT.getD 1
          let signature := p.ecdsaSign hash privkey ++ [sighash % 256]
          .ok (alistInsert pubkey signature st.1, insertSet fing st.2)
    else
      match sighashT with
      | none => .err ("sighash empty")
      | some sighash =>
        let hash := p.sighashLegacy tx input_index script sighash
        let signature := p.ecdsaSign hash privkey ++ [sighash % 256]
        .ok (alistInsert pubkey signature st.1, insertSet fing st.2)

/-- The keypath loop of `sign_input`.  A failing entry aborts the loop but
the insertions of the earlier entries persist (in Rust they already happened
through the `&mut` borrow). -/
def signEntries (p : Prims) (xprv : XPrv) (tx : Transaction) (isWitness : Bool)
    (wutxo : Option TxOut) (sighashT : Option Nat) (script : Script)
    (input_index : Nat) (myFing : Nat) :
    List HdEntry → List (List Nat × List Nat) × List Nat →
    PResult Unit × (List (List Nat × List Nat) × List Nat)
  | [], st => (.ok (), st)
  | e :: rest, st =>
    match signEntry p xprv tx isWitness wutxo sighashT script input_index
        myFing st e with
    | .ok st' =>
      signEntries p xprv tx isWitness wutxo sighashT script input_index
        myFing rest st'
    | .err m => (.err m, st)
    | .panic m => (.panic m, st)

/-- Replace input `i` of the signer's PSBT. -/
def setInput (s : PSBTSigner) (i : Nat) (inp : Input) : PSBTSigner :=
  { s with psbt := { s.psbt with inputs := s.psbt.inputs.set i inp } }

/-- `PSBTSigner::sign_input(script, input_index)`: reads the live input
(`&mut self.psbt.inputs[input_index]`, Rust indexing panics out of range),
runs the keypath loop, writes back the updated `partial_sigs` and
`signed_by`. -/
def PSBTSigner.sign_input (p : Prims) (s : PSBTSigner) (script : Script)
    (input_index : Nat) : PResult Unit × PSBTSigner :=
  match s.psbt.inputs.get? input_index with
  | none => (.panic ("index out of bounds"), s)
  | some input =>
    let tx := s.psbt.global.unsigned_tx
    let is_witness := input.non_witness_utxo.isNone
    let my_fing := p.fingerprintOf s.xprv
    match signEntries p s.xprv tx is_witness input.witness_utxo
        input.sighash_type script input_index my_fing input.hd_keypaths
        (input.partial_sigs, s.signed_by) with
    | (r, (psigs, sby)) =>
      (r, { setInput s input_index { input with partial_sigs := psigs } with
              signed_by := sby })

/-- Outcome of the per-input validation of `PSBTSigner::sign`, deciding the
script handed to `sign_input`. -/
inductive ClassifyResult where
  | ok (script : Script)
  | err (msg : String)
  | panic (msg : String)
deriving DecidableEq, Repr

/-- The validation / script-selection part of the loop body of
`PSBTSigner::sign` (lines 120-173 of `sign.rs`): the decision tree over
`non_witness_utxo` / `witness_utxo` / `redeem_script` / `witness_script`.
`Option::expect` on a missing value is a Rust panic. -/
def classify (p : Prims) (tx : Transaction) (input : Input) (i : Nat) :
    ClassifyResult :=
  match input.non_witness_utxo with
  | some non_witness_utxo =>
    match tx.input.get? i with
    | none => .panic ("index out of bounds")
    | some txin =>
      let prevout := txin.previous_output
      if p.txid non_witness_utxo ≠ prevout.txid then
        .err ("prevout doesn't match non_witness_utxo")
      else
        match non_witness_utxo.output.get? prevout.vout with
        | none => .panic ("index out of bounds")
        | some out =>
          let script_pubkey := out.script_pubkey
          match input.redeem_script with
          | some redeem_script =>
            if script_pubkey ≠ toP2sh p redeem_script then
              .err ("script_pubkey does not match the redeem script converted to p2sh")
            else .ok redeem_script
          | none => .ok script_pubkey
  | none =>
    match input.witness_utxo with
    | none => .panic ("both witness_utxo and non_witness_utxo are none")
    | some witness_utxo =>
      let scriptR : PResult Script :=
        match input.redeem_script with
        | some script =>
          if witness_utxo.script_pubkey ≠ toP2sh p script then
            .err ("witness_utxo script_pubkey doesn't match the redeem script converted to p2sh")
          else .ok script
        | none => .ok witness_utxo.script_pubkey
      match scriptR with
      | .err m => .err m
      | .panic m => .panic m
      | .ok script =>
        if isV0P2wpkh script then
          let script' := to_p2pkh (script.drop 2)
          if ¬ isP2pkh script' then .err ("it is not a p2pkh script")
          else .ok script'
        else
          match input.witness_script with
          | none => .panic ("witness_script is none")
          | some wit_script =>
            if script ≠ toV0P2wsh p wit_script then
              .err ("script and witness script to v0 p2wsh doesn't match")
            else .ok wit_script

/-- One iteration of the `for (i, input) in self.psbt.inputs.clone()` loop of
`PSBTSigner::sign`: validate/classify the snapshot input, then sign it. -/
def signOneInput (p : Prims) (inp : Input) (i : Nat) (s : PSBTSigner) :
    PResult Unit × PSBTSigner :=
  match classify p s.psbt.global.unsigned_tx inp i with
  | .ok script => PSBTSigner.sign_input p s script i
  | .err m => (.err m, s)
  | .panic m => (.panic m, s)

/-- The input loop of `PSBTSigner::sign`, iterating over the snapshot of the
inputs taken after the keypath pre-pass; a failure aborts the loop, keeping
the state mutated so far. -/
def signLoop (p : Prims) : List Input → Nat → PSBTSigner →
    PResult Unit × PSBTSigner
  | [], _, s => (.ok (), s)
  | inp :: rest, i, s =>
    match signOneInput p inp i s with
    | (.ok _, s') => signLoop p rest (i + 1) s'
    | (.err m, s') => (.err m, s')
    | (.panic m, s') => (.panic m, s')

/-- The inner `for j in 0..=self.derivations` loop of
`init_hd_keypath_if_absent` for one value of `i`: derive `m/j` from the node
`first` (which is `m/i` from the master), record the resulting public key
under the path `m/i/j`. -/
def buildKeysRow (p : Prims) (first : XPrv) (fing : Nat) (i : Nat) :
    List Nat → List (List Nat × Nat × List Nat) →
    List (List Nat × Nat × List Nat)
  | [], keys => keys
  | j :: js, keys =>
    let derived := derivePriv p first [j]
    let derived_pubkey := p.pubOf derived
    buildKeysRow p first fing i js
      (alistInsert derived_pubkey (fing, [i, j]) keys)

/-- The candidate map of the keypath pre-pass: `for i in 0..=1`, derive
`m/i`, then for `j in 0..=derivations` derive `m/j` from it, keyed by the
derived public key, valued `(master fingerprint, path m/i/j)`. -/
def buildKeys (p : Prims) (xprv : XPrv) (derivations : Nat) :
    List (List Nat × Nat × List Nat) :=
  let fing := p.fingerprintOf xprv
  let js := List.range (derivations + 1)
  let k0 := buildKeysRow p (derivePriv p xprv [0]) fing 0 js []
  buildKeysRow p (derivePriv p xprv [1]) fing 1 js k0

/-- The per-script insertion loop of the pre-pass: every extracted key that
is in the candidate map is inserted into the record's `hd_keypaths`, and the
`added` flag is raised. -/
def addKeysLoop (keys : List (List Nat × Nat × List Nat)) :
    List (List Nat) → List HdEntry → Bool → List HdEntry × Bool
  | [], hd, added => (hd, added)
  | k :: ks, hd, added =>
    match alistLookup k keys with
    | some v => addKeysLoop keys ks (alistInsert k v hd) true
    | none => addKeysLoop keys ks hd added

/-- The input pass of `init_hd_keypath_if_absent`: for every input with a
`witness_script`, run `addKeysLoop` over its extracted public keys. -/
def addToInputs (keys : List (List Nat × Nat × List Nat)) :
    List Input → Bool → List Input × Bool
  | [], added => ([], added)
  | inp :: rest, added =>
    match inp.witness_script with
    | some ws =>
      let (hd, added') := addKeysLoop keys (extractPubKeys ws) inp.hd_keypaths added
      let (rest', added'') := addToInputs keys rest added'
      ({ inp with hd_keypaths := hd } :: rest', added'')
    | none =>
      let (rest', added') := addToInputs keys rest added
      (inp :: rest', added')

/-- The output pass of `init_hd_keypath_if_absent`. -/
def addToOutputs (keys : List (List Nat × Nat × List Nat)) :
    List Output → Bool → List Output × Bool
  | [], added => ([], added)
  | out :: rest, added =>
    match out.witness_script with
    | some ws =>
      let (hd, added') := addKeysLoop keys (extractPubKeys ws) out.hd_keypaths added
      let (rest', added'') := addToOutputs keys rest added'
      ({ out with hd_keypaths := hd } :: rest', added'')
    | none =>
      let (rest', added') := addToOutputs keys rest added
      (out :: rest', added')

/-- `PSBTSigner::init_hd_keypath_if_absent`.  Triggered when any input or any
output has an empty `hd_keypaths` (the source's local names `outputs_empty` /
`inputs_empty` are swapped, the condition is their disjunction).  A
derivation bound of `2^31` or more makes `DerivationPath::from_str("m/j")`
fail on the first hardened-range `j`, before anything is mutated. -/
def PSBTSigner.init_hd_keypath_if_absent (p : Prims) (s : PSBTSigner) :
    PResult Bool × PSBTSigner :=
  let outputs_empty := s.psbt.inputs.any fun i => i.hd_keypaths.isEmpty
  let inputs_empty := s.psbt.outputs.any fun o => o.hd_keypaths.isEmpty
  if outputs_empty || inputs_empty then
    if 2 ^ 31 ≤ s.derivations then (.err ("invalid child number"), s)
    else
      let keys := buildKeys p s.xprv s.derivations
      let (inputs', a₁) := addToInputs keys s.psbt.inputs false
      let (outputs', a₂) := addToOutputs keys s.psbt.outputs a₁
      (.ok a₂,
        { s with psbt := { s.psbt with inputs := inputs', outputs := outputs' } })
  else
    (.ok false, s)

/-- `PSBTSigner::sign`: snapshot the inputs, run the keypath pre-pass, run
the input loop over the (post-pre-pass) snapshot, compare. -/
def PSBTSigner.sign (p : Prims) (s : PSBTSigner) :
    PResult SignResult × PSBTSigner :=
  let initial_inputs := s.psbt.inputs
  match PSBTSigner.init_hd_keypath_if_absent p s with
  | (.ok added_paths, s₁) =>
    match signLoop p s₁.psbt.inputs 0 s₁ with
    | (.ok _, s₂) =>
      (.ok { signed := decide (s₂.psbt.inputs ≠ initial_inputs),
             added_paths := added_paths }, s₂)
    | (.err m, s₂) => (.err m, s₂)
    | (.panic m, s₂) => (.panic m, s₂)
  | (.err m, s₁) => (.err m, s₁)
  | (.panic m, s₁) => (.panic m, s₁)

end Firma

namespace Firma

/-! ### List and association-list toolkit -/

theorem get?_set_self {α : Type} :
    ∀ (l : List α) (i : Nat) (v : α), i < l.length → (l.set i v).get? i = some v := by
  intro l
  induction l with
  | nil => intro i v h; simp at h
  | cons a rest ih =>
    intro i v h
    cases i with
    | zero => rfl
    | succ n => exact ih n v (Nat.succ_lt_succ_iff.mp h)

theorem get?_set_ne {α : Type} :
    ∀ (l : List α) (i j : Nat) (v : α), i ≠ j → (l.set i v).get? j = l.get? j := by
  intro l
  induction l with
  | nil => intro i j v _; rfl
  | cons a rest ih =>
    intro i j v h
    cases i with
    | zero =>
      cases j with
      | zero => exact absurd rfl h
      | succ m => rfl
    | succ n =>
      cases j with
      | zero => rfl
      | succ m => exact ih n m v (fun hc => h (congrArg Nat.succ hc))

theorem set_of_get? {α : Type} :
    ∀ (l : List α) (i : Nat) (v : α), l.get? i = some v → l.set i v = l := by
  intro l
  induction l with
  | nil => intro i v h; cases h
  | cons a rest ih =>
    intro i v h
    cases i with
    | zero =>
      have hv : a = v := Option.some.inj h
      rw [← hv]; rfl
    | succ n => exact congrArg (List.cons a) (ih n v h)

theorem map_set_outside {α β : Type} :
    ∀ (l : List α) (i : Nat) (a : α) (f : α → β),
      (∀ b, l.get? i = some b → f a = f b) → (l.set i a).map f = l.map f := by
  intro l
  induction l with
  | nil => intro i a f _; rfl
  | cons x rest ih =>
    intro i a f h
    cases i with
    | zero =>
      show f a :: rest.map f = f x :: rest.map f
      rw [h x rfl]
    | succ n =>
      show f x :: (rest.set n a).map f = f x :: rest.map f
      exact congrArg _ (ih n a f (fun b hb => h b hb))

theorem map_set_congr {α β : Type} :
    ∀ (l : List α) (i : Nat) (a b : α) (f : α → β),
      f a = f b → (l.set i a).map f = (l.set i b).map f := by
  intro l
  induction l with
  | nil => intro i a b f _; rfl
  | cons x rest ih =>
    intro i a b f h
    cases i with
    | zero =>
      show f a :: rest.map f = f b :: rest.map f
      rw [h]
    | succ n =>
      show f x :: (rest.set n a).map f = f x :: (rest.set n b).map f
      exact congrArg _ (ih n a b f h)

theorem set_set' {α : Type} :
    ∀ (l : List α) (i : Nat) (a b : α), (l.set i a).set i b = l.set i b := by
  intro l
  induction l with
  | nil => intro i a b; rfl
  | cons x rest ih =>
    intro i a b
    cases i with
    | zero => rfl
    | succ n =>
      show x :: (rest.set n a).set n b = x :: rest.set n b
      exact congrArg _ (ih n a b)

theorem alistLookup_insert_self {κ α : Type} [DecidableEq κ] (k : κ) (v : α) :
    ∀ l : List (κ × α), alistLookup k (alistInsert k v l) = some v := by
  intro l
  induction l with
  | nil => simp [alistInsert, alistLookup]
  | cons p rest ih =>
    obtain ⟨k', v'⟩ := p
    by_cases h : k' = k
    · simp [alistInsert, alistLookup, h]
    · simp [alistInsert, alistLookup, h, ih]

theorem alistLookup_insert_ne {κ α : Type} [DecidableEq κ] (k k' : κ) (v : α)
    (h : k' ≠ k) : ∀ l : List (κ × α),
    alistLookup k (alistInsert k' v l) = alistLookup k l := by
  intro l
  induction l with
  | nil => simp [alistInsert, alistLookup, h]
  | cons p rest ih =>
    obtain ⟨k₀, v₀⟩ := p
    by_cases h₀ : k₀ = k'
    · subst h₀; simp [alistInsert, alistLookup, h]
    · by_cases h₁ : k₀ = k
      · simp [alistInsert, alistLookup, h₀, h₁, Ne.symm h]
      · simp [alistInsert, alistLookup, h₀, h₁, ih]

theorem alistInsert_of_lookup {κ α : Type} [DecidableEq κ] (k : κ) (v : α) :
    ∀ l : List (κ × α), alistLookup k l = some v → alistInsert k v l = l := by
  intro l
  induction l with
  | nil => intro h; simp [alistLookup] at h
  | cons p rest ih =>
    obtain ⟨k₀, v₀⟩ := p
    intro h
    by_cases h₀ : k₀ = k
    · subst h₀
      simp [alistLookup] at h
      simp [alistInsert, h]
    · simp [alistLookup, h₀] at h
      simp [alistInsert, h₀, ih h]

theorem alistLookup_isSome_insert {κ α : Type} [DecidableEq κ] (k k' : κ) (v : α)
    (l : List (κ × α)) (h : (alistLookup k l).isSome) :
    (alistLookup k (alistInsert k' v l)).isSome := by
  by_cases hk : k' = k
  · subst hk; simp [alistLookup_insert_self]
  · rwa [alistLookup_insert_ne k k' v hk]

theorem mem_fst_alistInsert {κ α : Type} [DecidableEq κ] (k x : κ) (v : α) :
    ∀ l : List (κ × α), x ∈ (alistInsert k v l).map Prod.fst →
      x = k ∨ x ∈ l.map Prod.fst := by
  intro l
  induction l with
  | nil => intro h; simp [alistInsert] at h; exact Or.inl h
  | cons p rest ih =>
    obtain ⟨k₀, v₀⟩ := p
    intro h
    by_cases h₀ : k₀ = k
    · subst h₀
      rw [show alistInsert k₀ v ((k₀, v₀) :: rest) = (k₀, v) :: rest from by
            simp [alistInsert]] at h
      rw [List.map_cons, List.mem_cons] at h
      rcases h with h | h
      · exact Or.inl h
      · exact Or.inr (by rw [List.map_cons]; exact List.mem_cons_of_mem _ h)
    · rw [show alistInsert k v ((k₀, v₀) :: rest) = (k₀, v₀) :: alistInsert k v rest from by
            simp [alistInsert, h₀]] at h
      rw [List.map_cons, List.mem_cons] at h
      rcases h with h | h
      · exact Or.inr (by rw [List.map_cons]; exact h ▸ List.mem_cons_self _ _)
      · rcases ih h with h' | h'
        · exact Or.inl h'
        · exact Or.inr (by rw [List.map_cons]; exact List.mem_cons_of_mem _ h')

/-- Keys of an association list stay distinct under insertion. -/
theorem alistInsert_keysNodup {κ α : Type} [DecidableEq κ] (k : κ) (v : α) :
    ∀ l : List (κ × α), (l.map Prod.fst).Nodup →
      ((alistInsert k v l).map Prod.fst).Nodup := by
  intro l
  induction l with
  | nil => intro _; simp [alistInsert]
  | cons p rest ih =>
    obtain ⟨k₀, v₀⟩ := p
    intro h
    rw [List.map_cons, List.nodup_cons] at h
    by_cases h₀ : k₀ = k
    · subst h₀
      rw [show alistInsert k₀ v ((k₀, v₀) :: rest) = (k₀, v) :: rest from by
            simp [alistInsert]]
      rw [List.map_cons, List.nodup_cons]
      exact h
    · rw [show alistInsert k v ((k₀, v₀) :: rest) = (k₀, v₀) :: alistInsert k v rest from by
            simp [alistInsert, h₀]]
      rw [List.map_cons, List.nodup_cons]
      refine ⟨?_, ih h.2⟩
      intro hmem
      rcases mem_fst_alistInsert k k₀ v rest hmem with h' | h'
      · exact h₀ h'
      · exact h.1 h'

theorem mem_insertSet_self (x : Nat) (l : List Nat) : x ∈ insertSet x l := by
  unfold insertSet
  by_cases h : x ∈ l
  · simp [h]
  · simp [h]

theorem mem_insertSet_of_mem (x y : Nat) (l : List Nat) (h : y ∈ l) :
    y ∈ insertSet x l := by
  unfold insertSet
  by_cases hx : x ∈ l
  · simp [hx, h]
  · simp [hx, h]

theorem insertSet_of_mem (x : Nat) (l : List Nat) (h : x ∈ l) :
    insertSet x l = l := by
  simp [insertSet, h]

end Firma

namespace Firma

/-! ### Per-entry action analysis of the keypath loop -/

/-- The state-independent effect of one `hd_keypaths` entry in the loop of
`sign_input`: skipped (foreign fingerprint), a signature insertion, or a
failure. -/
inductive EntryAct where
  | skip
  | act (pk : List Nat) (fing : Nat) (sg : List Nat)
  | failErr (msg : String)
  | failPanic (msg : String)
deriving DecidableEq, Repr

/-- The action taken by `signEntry` for an entry; it does not depend on the
running `(partial_sigs, signed_by)` state. -/
def entryActOf (p : Prims) (xprv : XPrv) (tx : Transaction) (isWitness : Bool)
    (wutxo : Option TxOut) (sighashT : Option Nat) (script : Script)
    (input_index : Nat) (myFing : Nat) (e : HdEntry) : EntryAct :=
  let (pubkey, fing, child) := e
  if fing ≠ myFing then .skip
  else
    let privkey := derivePriv p xprv child
    let derived_pubkey := p.pubOf privkey
    if pubkey ≠ derived_pubkey then
      .failErr ("pubkey derived and expected differs even if fingerprint matches!")
    else if isWitness then
      match wutxo with
      | none => .failErr ("witness_utxo is empty")
      | some w =>
        match tx.input.get? input_index with
        | none => .failPanic ("index out of bounds")
        | some txin =>
          let hash := p.sighashAllSegwit tx txin script w.value
          let sighash := sighashT.getD 1
          .act pubkey fing (p.ecdsaSign hash privkey ++ [sighash % 256])
    else
      match sighashT with
      | none => .failErr ("sighash empty")
      | some sighash =>
        let hash := p.sighashLegacy tx input_index script sighash
        .act pubkey fing (p.ecdsaSign hash privkey ++ [sighash % 256])

/-- An action that is not a failure. -/
def actOk : EntryAct → Prop
  | .failErr _ => False
  | .failPanic _ => False
  | _ => True

section EntryLoop

variable (p : Prims) (xprv : XPrv) (tx : Transaction) (isW : Bool)
variable (wutxo : Option TxOut) (sighashT : Option Nat) (script : Script)
variable (idx : Nat) (myFing : Nat)

theorem signEntry_eq_act (st : List (List Nat × List Nat) × List Nat)
    (e : HdEntry) :
    signEntry p xprv tx isW wutxo sighashT script idx myFing st e =
      (match entryActOf p xprv tx isW wutxo sighashT script idx myFing e with
       | .skip => .ok st
       | .act pk f sg => .ok (alistInsert pk sg st.1, insertSet f st.2)
       | .failErr m => .err m
       | .failPanic m => .panic m) := by
  obtain ⟨pk, fing, child⟩ := e
  by_cases h₁ : fing ≠ myFing
  · simp [signEntry, entryActOf, h₁]
  · by_cases h₂ : pk ≠ p.pubOf (derivePriv p xprv child)
    · simp [signEntry, entryActOf, h₁, h₂]
    · cases isW with
      | true =>
        cases wutxo with
        | none => simp [signEntry, entryActOf, h₁, h₂]
        | some w =>
          cases htx : tx.input.get? idx with
          | none =>
            simp only [signEntry, entryActOf, htx]
            simp [h₁, h₂]
          | some txin =>
            simp only [signEntry, entryActOf, htx]
            simp [h₁, h₂]
      | false =>
        cases sighashT with
        | none => simp [signEntry, entryActOf, h₁, h₂]
        | some t => simp [signEntry, entryActOf, h₁, h₂]

/-- A signing action records the entry's own public key and fingerprint. -/
theorem entryActOf_act_pk (e : HdEntry) (pk : List Nat) (fg : Nat)
    (sg : List Nat)
    (h : entryActOf p xprv tx isW wutxo sighashT script idx myFing e =
      .act pk fg sg) : pk = e.1 ∧ fg = e.2.1 := by
  obtain ⟨pk₀, fing₀, child₀⟩ := e
  by_cases h₁ : fing₀ ≠ myFing
  · simp [entryActOf, h₁] at h
  · by_cases h₂ : pk₀ ≠ p.pubOf (derivePriv p xprv child₀)
    · simp [entryActOf, h₁, h₂] at h
    · cases isW with
      | true =>
        cases wutxo with
        | none => simp [entryActOf, h₁, h₂] at h
        | some w =>
          cases htx : tx.input.get? idx with
          | none =>
            simp only [entryActOf, htx] at h
            simp [h₁, h₂] at h
          | some txin =>
            simp only [entryActOf, htx] at h
            simp [h₁, h₂] at h
            exact ⟨h.1.symm, h.2.1.symm⟩
      | false =>
        cases sighashT with
        | none => simp [entryActOf, h₁, h₂] at h
        | some t =>
          simp [entryActOf, h₁, h₂] at h
          exact ⟨h.1.symm, h.2.1.symm⟩

/-- A non-failing action implies the derived-pubkey check passed whenever the
fingerprint matched. -/
theorem actOk_key_ok (e : HdEntry)
    (h : actOk (entryActOf p xprv tx isW wutxo sighashT script idx myFing e)) :
    e.2.1 = myFing → p.pubOf (derivePriv p xprv e.2.2) = e.1 := by
  intro hf
  obtain ⟨pk₀, fing₀, child₀⟩ := e
  have hf' : fing₀ = myFing := hf
  by_cases h₂ : pk₀ ≠ p.pubOf (derivePriv p xprv child₀)
  · exfalso
    have hx : entryActOf p xprv tx isW wutxo sighashT script idx myFing
        (pk₀, fing₀, child₀) = .failErr
          ("pubkey derived and expected differs even if fingerprint matches!") := by
      simp [entryActOf, hf', h₂]
    rw [hx] at h
    exact h
  · exact (not_ne_iff.mp h₂).symm

theorem signEntries_sby_mono :
    ∀ (es : List HdEntry) st r st',
      signEntries p xprv tx isW wutxo sighashT script idx myFing es st =
        (r, st') → ∀ f, f ∈ st.2 → f ∈ st'.2 := by
  intro es
  induction es with
  | nil =>
    intro st r st' h f hf
    cases h
    exact hf
  | cons e rest ih =>
    intro st r st' h f hf
    rw [signEntries, signEntry_eq_act] at h
    cases hact : entryActOf p xprv tx isW wutxo sighashT script idx myFing e with
    | skip =>
      rw [hact] at h
      exact ih st r st' h f hf
    | act pk fg sg =>
      rw [hact] at h
      exact ih _ r st' h f (mem_insertSet_of_mem fg f st.2 hf)
    | failErr m =>
      rw [hact] at h
      cases h
      exact hf
    | failPanic m =>
      rw [hact] at h
      cases h
      exact hf

theorem signEntries_lookup_isSome :
    ∀ (es : List HdEntry) st r st' k,
      signEntries p xprv tx isW wutxo sighashT script idx myFing es st =
        (r, st') → (alistLookup k st.1).isSome → (alistLookup k st'.1).isSome := by
  intro es
  induction es with
  | nil =>
    intro st r st' k h hk
    cases h
    exact hk
  | cons e rest ih =>
    intro st r st' k h hk
    rw [signEntries, signEntry_eq_act] at h
    cases hact : entryActOf p xprv tx isW wutxo sighashT script idx myFing e with
    | skip =>
      rw [hact] at h
      exact ih st r st' k h hk
    | act pk fg sg =>
      rw [hact] at h
      exact ih _ r st' k h (alistLookup_isSome_insert k pk sg st.1 hk)
    | failErr m =>
      rw [hact] at h
      cases h
      exact hk
    | failPanic m =>
      rw [hact] at h
      cases h
      exact hk

theorem signEntries_lookup_notmem :
    ∀ (es : List HdEntry) st r st' k,
      signEntries p xprv tx isW wutxo sighashT script idx myFing es st =
        (r, st') → k ∉ es.map (fun e => e.1) →
      alistLookup k st'.1 = alistLookup k st.1 := by
  intro es
  induction es with
  | nil =>
    intro st r st' k h _
    cases h
    rfl
  | cons e rest ih =>
    intro st r st' k h hk
    rw [List.map_cons, List.mem_cons] at hk
    push_neg at hk
    rw [signEntries, signEntry_eq_act] at h
    cases hact : entryActOf p xprv tx isW wutxo sighashT script idx myFing e with
    | skip =>
      rw [hact] at h
      exact ih st r st' k h hk.2
    | act pk fg sg =>
      rw [hact] at h
      have hpk := (entryActOf_act_pk p xprv tx isW wutxo sighashT script idx
        myFing e pk fg sg hact).1
      have hne : pk ≠ k := by rw [hpk]; exact fun hc => hk.1 hc.symm
      rw [ih _ r st' k h hk.2]
      exact alistLookup_insert_ne k pk sg hne st.1
    | failErr m =>
      rw [hact] at h
      cases h
      rfl
    | failPanic m =>
      rw [hact] at h
      cases h
      rfl

/-- A keypath loop that returned `ok` made no failing action. -/
theorem signEntries_ok_acts :
    ∀ (es : List HdEntry) st st' u,
      signEntries p xprv tx isW wutxo sighashT script idx myFing es st =
        (.ok u, st') → ∀ e ∈ es,
      actOk (entryActOf p xprv tx isW wutxo sighashT script idx myFing e) := by
  intro es
  induction es with
  | nil => intro st st' u _ e he; cases he
  | cons e₀ rest ih =>
    intro st st' u h e he
    rw [signEntries, signEntry_eq_act] at h
    cases hact : entryActOf p xprv tx isW wutxo sighashT script idx myFing e₀ with
    | skip =>
      rw [hact] at h
      rcases List.mem_cons.mp he with rfl | he'
      · rw [hact]; trivial
      · exact ih st st' u h e he'
    | act pk fg sg =>
      rw [hact] at h
      rcases List.mem_cons.mp he with rfl | he'
      · rw [hact]; trivial
      · exact ih _ st' u h e he'
    | failErr m =>
      rw [hact] at h
      simp at h
    | failPanic m =>
      rw [hact] at h
      simp at h

/-- After a successful keypath loop over entries with distinct public keys,
each signing action's signature is present in the final `partial_sigs` and
its fingerprint is in the final `signed_by`. -/
theorem signEntries_ok_saturated :
    ∀ (es : List HdEntry) st st' u,
      signEntries p xprv tx isW wutxo sighashT script idx myFing es st =
        (.ok u, st') → (es.map (fun e => e.1)).Nodup →
      ∀ e ∈ es, ∀ pk fg sg,
        entryActOf p xprv tx isW wutxo sighashT script idx myFing e =
          .act pk fg sg →
        alistLookup pk st'.1 = some sg ∧ fg ∈ st'.2 := by
  intro es
  induction es with
  | nil => intro st st' u _ _ e he; cases he
  | cons e₀ rest ih =>
    intro st st' u h hnd e he pk fg sg hact
    rw [List.map_cons, List.nodup_cons] at hnd
    rw [signEntries, signEntry_eq_act] at h
    cases hact₀ : entryActOf p xprv tx isW wutxo sighashT script idx myFing e₀ with
    | skip =>
      rw [hact₀] at h
      rcases List.mem_cons.mp he with rfl | he'
      · rw [hact₀] at hact; cases hact
      · exact ih st st' u h hnd.2 e he' pk fg sg hact
    | act pk₀ fg₀ sg₀ =>
      rw [hact₀] at h
      rcases List.mem_cons.mp he with rfl | he'
      · rw [hact₀] at hact
        cases hact
        have hpk := (entryActOf_act_pk p xprv tx isW wutxo sighashT script idx
          myFing e pk fg sg hact₀).1
        constructor
        · rw [signEntries_lookup_notmem p xprv tx isW wutxo sighashT script idx
            myFing rest _ (.ok u) st' pk h (by rw [hpk]; exact hnd.1)]
          exact alistLookup_insert_self pk sg st.1
        · exact signEntries_sby_mono p xprv tx isW wutxo sighashT script idx
            myFing rest _ (.ok u) st' h fg (mem_insertSet_self fg st.2)
      · exact ih _ st' u h hnd.2 e he' pk fg sg hact
    | failErr m =>
      rw [hact₀] at h
      simp at h
    | failPanic m =>
      rw [hact₀] at h
      simp at h

/-- If every entry's action is non-failing and already recorded in the state,
the keypath loop is a no-op. -/
theorem signEntries_settled :
    ∀ (es : List HdEntry) st,
      (∀ e ∈ es, actOk
        (entryActOf p xprv tx isW wutxo sighashT script idx myFing e)) →
      (∀ e ∈ es, ∀ pk fg sg,
        entryActOf p xprv tx isW wutxo sighashT script idx myFing e =
          .act pk fg sg → alistLookup pk st.1 = some sg ∧ fg ∈ st.2) →
      signEntries p xprv tx isW wutxo sighashT script idx myFing es st =
        (.ok (), st) := by
  intro es
  induction es with
  | nil => intro st _ _; rfl
  | cons e₀ rest ih =>
    intro st hok hsat
    rw [signEntries, signEntry_eq_act]
    cases hact : entryActOf p xprv tx isW wutxo sighashT script idx myFing e₀ with
    | skip =>
      exact ih st (fun e he => hok e (List.mem_cons_of_mem e₀ he))
        (fun e he => hsat e (List.mem_cons_of_mem e₀ he))
    | act pk fg sg =>
      have hs := hsat e₀ (List.mem_cons_self e₀ rest) pk fg sg hact
      show signEntries p xprv tx isW wutxo sighashT script idx myFing rest
          (alistInsert pk sg st.1, insertSet fg st.2) = (.ok (), st)
      rw [alistInsert_of_lookup pk sg st.1 hs.1, insertSet_of_mem fg st.2 hs.2]
      exact ih st (fun e he => hok e (List.mem_cons_of_mem e₀ he))
        (fun e he => hsat e (List.mem_cons_of_mem e₀ he))
    | failErr m =>
      exfalso
      have := hok e₀ (List.mem_cons_self e₀ rest)
      rw [hact] at this
      exact this
    | failPanic m =>
      exfalso
      have := hok e₀ (List.mem_cons_self e₀ rest)
      rw [hact] at this
      exact this

/-- For a non-witness input the keypath loop never reads the
`witness_utxo`. -/
theorem signEntries_nonwitness_wutxo_irrel (w₁ w₂ : Option TxOut) :
    ∀ (es : List HdEntry) st,
      signEntries p xprv tx false w₁ sighashT script idx myFing es st =
      signEntries p xprv tx false w₂ sighashT script idx myFing es st := by
  have hact : ∀ e, entryActOf p xprv tx false w₁ sighashT script idx myFing e =
      entryActOf p xprv tx false w₂ sighashT script idx myFing e := by
    intro e
    obtain ⟨pk₀, fing₀, child₀⟩ := e
    by_cases h₁ : fing₀ ≠ myFing
    · simp [entryActOf, h₁]
    · by_cases h₂ : pk₀ ≠ p.pubOf (derivePriv p xprv child₀)
      · simp [entryActOf, h₁, h₂]
      · cases sighashT with
        | none => simp [entryActOf, h₁, h₂]
        | some t => simp [entryActOf, h₁, h₂]
  intro es
  induction es with
  | nil => intro st; rfl
  | cons e rest ih =>
    intro st
    rw [signEntries, signEntries, signEntry_eq_act, signEntry_eq_act, hact e]
    cases entryActOf p xprv tx false w₂ sighashT script idx myFing e with
    | skip => exact ih st
    | act pk fg sg => exact ih _
    | failErr m => rfl
    | failPanic m => rfl

end EntryLoop

end Firma

namespace Firma

/-! ### Classification and per-input lemmas -/

theorem lt_of_get?_some {α : Type} :
    ∀ (l : List α) (i : Nat) (x : α), l.get? i = some x → i < l.length := by
  intro l
  induction l with
  | nil => intro i x h; cases h
  | cons a rest ih =>
    intro i x h
    cases i with
    | zero => exact Nat.succ_pos _
    | succ n => exact Nat.succ_lt_succ (ih n x h)

/-- `classify` reads only the UTXO/script fields of the input, never its
`partial_sigs` or `hd_keypaths`. -/
theorem classify_core (p : Prims) (tx : Transaction) (inp : Input) (i : Nat)
    (Q : List (List Nat × List Nat)) (H : List HdEntry) :
    classify p tx { inp with partial_sigs := Q, hd_keypaths := H } i =
      classify p tx inp i := by
  cases inp
  rfl

/-- With a `non_witness_utxo` present, `classify` never reads the
`witness_utxo`. -/
theorem classify_nonwitness_wutxo (p : Prims) (tx : Transaction) (inp : Input)
    (i : Nat) (u : Transaction) (x : Option TxOut)
    (h : inp.non_witness_utxo = some u) :
    classify p tx { inp with witness_utxo := x } i = classify p tx inp i := by
  obtain ⟨nwu, wu, rs, ws, sht, ps, hd⟩ := inp
  subst h
  rfl

theorem sign_input_none (p : Prims) (s : PSBTSigner) (script : Script)
    (idx : Nat) (h : s.psbt.inputs.get? idx = none) :
    PSBTSigner.sign_input p s script idx = (.panic ("index out of bounds"), s) := by
  simp only [PSBTSigner.sign_input, h]

theorem sign_input_eq (p : Prims) (s : PSBTSigner) (script : Script) (idx : Nat)
    (inp : Input) (h : s.psbt.inputs.get? idx = some inp)
    (r : PResult Unit) (Q : List (List Nat × List Nat)) (B : List Nat)
    (hse : signEntries p s.xprv s.psbt.global.unsigned_tx
      inp.non_witness_utxo.isNone inp.witness_utxo inp.sighash_type script idx
      (p.fingerprintOf s.xprv) inp.hd_keypaths (inp.partial_sigs, s.signed_by) =
      (r, (Q, B))) :
    PSBTSigner.sign_input p s script idx =
      (r, { setInput s idx { inp with partial_sigs := Q } with signed_by := B }) := by
  simp only [PSBTSigner.sign_input, h, hse]

theorem signOneInput_classify_err (p : Prims) (inp : Input) (i : Nat)
    (s : PSBTSigner) (m : String)
    (h : classify p s.psbt.global.unsigned_tx inp i = .err m) :
    signOneInput p inp i s = (.err m, s) := by
  simp only [signOneInput, h]

theorem signOneInput_classify_panic (p : Prims) (inp : Input) (i : Nat)
    (s : PSBTSigner) (m : String)
    (h : classify p s.psbt.global.unsigned_tx inp i = .panic m) :
    signOneInput p inp i s = (.panic m, s) := by
  simp only [signOneInput, h]

theorem signOneInput_classify_ok (p : Prims) (inp : Input) (i : Nat)
    (s : PSBTSigner) (script : Script)
    (h : classify p s.psbt.global.unsigned_tx inp i = .ok script) :
    signOneInput p inp i s = PSBTSigner.sign_input p s script i := by
  simp only [signOneInput, h]

/-- What one iteration of the input loop preserves, for every outcome. -/
theorem signOneInput_preserve (p : Prims) (inp : Input) (i : Nat)
    (s : PSBTSigner) (r : PResult Unit) (s' : PSBTSigner)
    (h : signOneInput p inp i s = (r, s')) :
    s'.psbt.global = s.psbt.global ∧
    s'.psbt.outputs = s.psbt.outputs ∧
    s'.xprv = s.xprv ∧ s'.network = s.network ∧
    s'.derivations = s.derivations ∧
    s'.psbt.inputs.length = s.psbt.inputs.length ∧
    (∀ j, j ≠ i → s'.psbt.inputs.get? j = s.psbt.inputs.get? j) ∧
    (∀ f, f ∈ s.signed_by → f ∈ s'.signed_by) ∧
    (∀ inp₀, s.psbt.inputs.get? i = some inp₀ →
      ∃ Q, s'.psbt.inputs.get? i = some { inp₀ with partial_sigs := Q } ∧
        (∀ k, (alistLookup k inp₀.partial_sigs).isSome →
          (alistLookup k Q).isSome)) := by
  cases hc : classify p s.psbt.global.unsigned_tx inp i with
  | err m =>
    rw [signOneInput_classify_err p inp i s m hc] at h
    cases h
    refine ⟨rfl, rfl, rfl, rfl, rfl, rfl, fun _ _ => rfl, fun _ hf => hf, ?_⟩
    intro inp₀ h₀
    exact ⟨inp₀.partial_sigs, by rw [h₀], fun k hk => hk⟩
  | panic m =>
    rw [signOneInput_classify_panic p inp i s m hc] at h
    cases h
    refine ⟨rfl, rfl, rfl, rfl, rfl, rfl, fun _ _ => rfl, fun _ hf => hf, ?_⟩
    intro inp₀ h₀
    exact ⟨inp₀.partial_sigs, by rw [h₀], fun k hk => hk⟩
  | ok script =>
    rw [signOneInput_classify_ok p inp i s script hc] at h
    cases hin : s.psbt.inputs.get? i with
    | none =>
      rw [sign_input_none p s script i hin] at h
      cases h
      refine ⟨rfl, rfl, rfl, rfl, rfl, rfl, fun _ _ => rfl, fun _ hf => hf, ?_⟩
      intro inp₀ h₀
      exact Option.noConfusion h₀
    | some inpL =>
      rcases hse : signEntries p s.xprv s.psbt.global.unsigned_tx
          inpL.non_witness_utxo.isNone inpL.witness_utxo inpL.sighash_type
          script i (p.fingerprintOf s.xprv) inpL.hd_keypaths
          (inpL.partial_sigs, s.signed_by) with ⟨r₀, Q, B⟩
      rw [sign_input_eq p s script i inpL hin r₀ Q B hse] at h
      cases h
      refine ⟨rfl, rfl, rfl, rfl, rfl, ?_, ?_, ?_, ?_⟩
      · exact List.length_set _ _ _
      · intro j hj
        exact get?_set_ne s.psbt.inputs i j _ (fun hc' => hj hc'.symm)
      · intro f hf
        exact signEntries_sby_mono p s.xprv s.psbt.global.unsigned_tx
          inpL.non_witness_utxo.isNone inpL.witness_utxo inpL.sighash_type
          script i (p.fingerprintOf s.xprv) inpL.hd_keypaths _ _ (Q, B) hse f hf
      · intro inp₀ h₀
        have heq : inpL = inp₀ := Option.some.inj h₀
        subst heq
        refine ⟨Q, ?_, ?_⟩
        · exact get?_set_self s.psbt.inputs i _ (lt_of_get?_some s.psbt.inputs i _ hin)
        · intro k hk
          exact signEntries_lookup_isSome p s.xprv s.psbt.global.unsigned_tx
            inpL.non_witness_utxo.isNone inpL.witness_utxo inpL.sighash_type
            script i (p.fingerprintOf s.xprv) inpL.hd_keypaths _ _ (Q, B) k hse hk

/-- What the whole input loop preserves, for every outcome. -/
theorem signLoop_preserve (p : Prims) :
    ∀ (L : List Input) (i : Nat) (s : PSBTSigner) (r : PResult Unit)
      (s' : PSBTSigner), signLoop p L i s = (r, s') →
    s'.psbt.global = s.psbt.global ∧
    s'.psbt.outputs = s.psbt.outputs ∧
    s'.xprv = s.xprv ∧ s'.network = s.network ∧
    s'.derivations = s.derivations ∧
    s'.psbt.inputs.length = s.psbt.inputs.length ∧
    (∀ j, j < i → s'.psbt.inputs.get? j = s.psbt.inputs.get? j) ∧
    (∀ f, f ∈ s.signed_by → f ∈ s'.signed_by) ∧
    (∀ j inp₀, s.psbt.inputs.get? j = some inp₀ →
      ∃ Q, s'.psbt.inputs.get? j = some { inp₀ with partial_sigs := Q } ∧
        (∀ k, (alistLookup k inp₀.partial_sigs).isSome →
          (alistLookup k Q).isSome)) := by
  intro L
  induction L with
  | nil =>
    intro i s r s' h
    cases h
    refine ⟨rfl, rfl, rfl, rfl, rfl, rfl, fun _ _ => rfl, fun _ hf => hf, ?_⟩
    intro j inp₀ h₀
    exact ⟨inp₀.partial_sigs, by rw [h₀], fun k hk => hk⟩
  | cons inp rest ih =>
    intro i s r s' h
    rw [signLoop] at h
    rcases h₀ : signOneInput p inp i s with ⟨r₀, s₁⟩
    have hp₁ := signOneInput_preserve p inp i s r₀ s₁ h₀
    rw [h₀] at h
    have hnext : (r, s') = (r₀, s₁) ∨ signLoop p rest (i + 1) s₁ = (r, s') := by
      cases r₀ with
      | ok u => exact Or.inr h
      | err m => exact Or.inl (by cases h; rfl)
      | panic m => exact Or.inl (by cases h; rfl)
    rcases hnext with heq | hrec
    · cases heq
      refine ⟨hp₁.1, hp₁.2.1, hp₁.2.2.1, hp₁.2.2.2.1, hp₁.2.2.2.2.1,
        hp₁.2.2.2.2.2.1, fun j hj => hp₁.2.2.2.2.2.2.1 j (Nat.ne_of_lt hj),
        hp₁.2.2.2.2.2.2.2.1, ?_⟩
      intro j inp₀ hj
      by_cases hji : j = i
      · subst hji
        exact hp₁.2.2.2.2.2.2.2.2 inp₀ hj
      · exact ⟨inp₀.partial_sigs,
          by rw [hp₁.2.2.2.2.2.2.1 j hji, hj], fun k hk => hk⟩
    · have hp₂ := ih (i + 1) s₁ r s' hrec
      refine ⟨hp₂.1.trans hp₁.1, hp₂.2.1.trans hp₁.2.1,
        hp₂.2.2.1.trans hp₁.2.2.1, hp₂.2.2.2.1.trans hp₁.2.2.2.1,
        hp₂.2.2.2.2.1.trans hp₁.2.2.2.2.1,
        hp₂.2.2.2.2.2.1.trans hp₁.2.2.2.2.2.1, ?_, ?_, ?_⟩
      · intro j hj
        rw [hp₂.2.2.2.2.2.2.1 j (Nat.lt_succ_of_lt hj),
          hp₁.2.2.2.2.2.2.1 j (Nat.ne_of_lt hj)]
      · intro f hf
        exact hp₂.2.2.2.2.2.2.2.1 f (hp₁.2.2.2.2.2.2.2.1 f hf)
      · intro j inp₀ hj
        by_cases hji : j = i
        · subst hji
          rcases hp₁.2.2.2.2.2.2.2.2 inp₀ hj with ⟨Q, hQ, hgrow⟩
          rcases hp₂.2.2.2.2.2.2.2.2 j _ hQ with ⟨Q', hQ', hgrow'⟩
          exact ⟨Q', hQ', fun k hk => hgrow' k (hgrow k hk)⟩
        · rcases hp₂.2.2.2.2.2.2.2.2 j inp₀
            (by rw [hp₁.2.2.2.2.2.2.1 j hji]; exact hj) with ⟨Q', hQ', hgrow'⟩
          exact ⟨Q', hQ', hgrow'⟩

end Firma

namespace Firma

/-! ### Keypath pre-pass lemmas -/

section PrePass

variable (keys : List (List Nat × Nat × List Nat))

theorem addKeysLoop_fst_flag :
    ∀ (ks : List (List Nat)) (hd : List HdEntry) (a b : Bool),
      (addKeysLoop keys ks hd a).1 = (addKeysLoop keys ks hd b).1 := by
  intro ks
  induction ks with
  | nil => intro hd a b; rfl
  | cons k rest ih =>
    intro hd a b
    rw [addKeysLoop, addKeysLoop]
    cases alistLookup k keys with
    | none => exact ih hd a b
    | some v => exact ih _ true true

theorem addKeysLoop_isSome :
    ∀ (ks : List (List Nat)) (hd : List HdEntry) (a : Bool) (k : List Nat),
      (alistLookup k hd).isSome →
      (alistLookup k (addKeysLoop keys ks hd a).1).isSome := by
  intro ks
  induction ks with
  | nil => intro hd a k h; exact h
  | cons k₀ rest ih =>
    intro hd a k h
    rw [addKeysLoop]
    cases alistLookup k₀ keys with
    | none => exact ih hd a k h
    | some v => exact ih _ true k (alistLookup_isSome_insert k k₀ v hd h)

theorem addKeysLoop_nodup :
    ∀ (ks : List (List Nat)) (hd : List HdEntry) (a : Bool),
      (hd.map Prod.fst).Nodup →
      ((addKeysLoop keys ks hd a).1.map Prod.fst).Nodup := by
  intro ks
  induction ks with
  | nil => intro hd a h; exact h
  | cons k₀ rest ih =>
    intro hd a h
    rw [addKeysLoop]
    cases alistLookup k₀ keys with
    | none => exact ih hd a h
    | some v => exact ih _ true (alistInsert_keysNodup k₀ v hd h)

theorem addKeysLoop_pres_sat :
    ∀ (ks : List (List Nat)) (hd : List HdEntry) (a : Bool) (k : List Nat)
      (v : Nat × List Nat), alistLookup k keys = some v →
      alistLookup k hd = some v →
      alistLookup k (addKeysLoop keys ks hd a).1 = some v := by
  intro ks
  induction ks with
  | nil => intro hd a k v _ hhd; exact hhd
  | cons k₀ rest ih =>
    intro hd a k v hkeys hhd
    rw [addKeysLoop]
    cases hk₀ : alistLookup k₀ keys with
    | none => exact ih hd a k v hkeys hhd
    | some v₀ =>
      by_cases hkk : k₀ = k
      · subst hkk
        have hv : v₀ = v := Option.some.inj (hk₀.symm.trans hkeys)
        subst hv
        exact ih _ true k₀ v₀ hkeys (alistLookup_insert_self k₀ v₀ hd)
      · exact ih _ true k v hkeys
          (by rw [alistLookup_insert_ne k k₀ v₀ hkk hd]; exact hhd)

theorem addKeysLoop_sat :
    ∀ (ks : List (List Nat)) (hd : List HdEntry) (a : Bool) (k : List Nat)
      (v : Nat × List Nat), k ∈ ks → alistLookup k keys = some v →
      alistLookup k (addKeysLoop keys ks hd a).1 = some v := by
  intro ks
  induction ks with
  | nil => intro hd a k v hk _; cases hk
  | cons k₀ rest ih =>
    intro hd a k v hk hkeys
    rcases List.mem_cons.mp hk with heq | hk'
    · subst heq
      rw [addKeysLoop, hkeys]
      exact addKeysLoop_pres_sat keys rest _ true _ v hkeys
        (alistLookup_insert_self _ v hd)
    · rw [addKeysLoop]
      cases hk₀ : alistLookup k₀ keys with
      | none => exact ih hd a k v hk' hkeys
      | some v₀ => exact ih _ true k v hk' hkeys

theorem addKeysLoop_noop :
    ∀ (ks : List (List Nat)) (hd : List HdEntry) (a : Bool),
      (∀ k v, k ∈ ks → alistLookup k keys = some v →
        alistLookup k hd = some v) →
      (addKeysLoop keys ks hd a).1 = hd := by
  intro ks
  induction ks with
  | nil => intro hd a _; rfl
  | cons k₀ rest ih =>
    intro hd a hcond
    rw [addKeysLoop]
    cases hk₀ : alistLookup k₀ keys with
    | none =>
      exact ih hd a (fun k v hk hkeys =>
        hcond k v (List.mem_cons_of_mem k₀ hk) hkeys)
    | some v₀ =>
      show (addKeysLoop keys rest (alistInsert k₀ v₀ hd) true).1 = hd
      rw [alistInsert_of_lookup k₀ v₀ hd
        (hcond k₀ v₀ (List.mem_cons_self k₀ rest) hk₀)]
      exact ih hd true (fun k v hk hkeys =>
        hcond k v (List.mem_cons_of_mem k₀ hk) hkeys)

/-- The shape of the processed input list: each input's `hd_keypaths` is
replaced by the result of `addKeysLoop` over its witness-script keys. -/
def deducedInput (inp : Input) : Input :=
  match inp.witness_script with
  | some ws =>
    { inp with hd_keypaths :=
        (addKeysLoop keys (extractPubKeys ws) inp.hd_keypaths false).1 }
  | none => inp

def deducedOutput (out : Output) : Output :=
  match out.witness_script with
  | some ws =>
    { out with hd_keypaths :=
        (addKeysLoop keys (extractPubKeys ws) out.hd_keypaths false).1 }
  | none => out

theorem addToInputs_length :
    ∀ (L : List Input) (a : Bool), (addToInputs keys L a).1.length = L.length := by
  intro L
  induction L with
  | nil => intro a; rfl
  | cons inp rest ih =>
    intro a
    rw [addToInputs]
    cases hws : inp.witness_script with
    | some ws =>
      show ((_ : Input) :: (addToInputs keys rest _).1).length = _
      simp only [List.length_cons]
      rw [ih]
    | none =>
      show (inp :: (addToInputs keys rest a).1).length = _
      simp only [List.length_cons]
      rw [ih]

theorem addToInputs_get :
    ∀ (L : List Input) (a : Bool) (j : Nat) (inp₀ : Input),
      L.get? j = some inp₀ →
      (addToInputs keys L a).1.get? j = some (deducedInput keys inp₀) := by
  intro L
  induction L with
  | nil => intro a j inp₀ h; cases h
  | cons inp rest ih =>
    intro a j inp₀ h
    rw [addToInputs]
    cases hws : inp.witness_script with
    | some ws =>
      cases j with
      | zero =>
        have : inp = inp₀ := Option.some.inj h
        subst this
        show some _ = some (deducedInput keys inp)
        rw [deducedInput, hws]
        rw [addKeysLoop_fst_flag keys (extractPubKeys ws) inp.hd_keypaths a false]
      | succ n =>
        show ((addToInputs keys rest _).1).get? n = _
        exact ih _ n inp₀ h
    | none =>
      cases j with
      | zero =>
        have : inp = inp₀ := Option.some.inj h
        subst this
        show some inp = some (deducedInput keys inp)
        rw [deducedInput, hws]
      | succ n =>
        show ((addToInputs keys rest a).1).get? n = _
        exact ih a n inp₀ h

theorem addToOutputs_length :
    ∀ (L : List Output) (a : Bool), (addToOutputs keys L a).1.length = L.length := by
  intro L
  induction L with
  | nil => intro a; rfl
  | cons out rest ih =>
    intro a
    rw [addToOutputs]
    cases hws : out.witness_script with
    | some ws =>
      show ((_ : Output) :: (addToOutputs keys rest _).1).length = _
      simp only [List.length_cons]
      rw [ih]
    | none =>
      show (out :: (addToOutputs keys rest a).1).length = _
      simp only [List.length_cons]
      rw [ih]

theorem addToOutputs_get :
    ∀ (L : List Output) (a : Bool) (j : Nat) (out₀ : Output),
      L.get? j = some out₀ →
      (addToOutputs keys L a).1.get? j = some (deducedOutput keys out₀) := by
  intro L
  induction L with
  | nil => intro a j out₀ h; cases h
  | cons out rest ih =>
    intro a j out₀ h
    rw [addToOutputs]
    cases hws : out.witness_script with
    | some ws =>
      cases j with
      | zero =>
        have : out = out₀ := Option.some.inj h
        subst this
        show some _ = some (deducedOutput keys out)
        rw [deducedOutput, hws]
        rw [addKeysLoop_fst_flag keys (extractPubKeys ws) out.hd_keypaths a false]
      | succ n =>
        show ((addToOutputs keys rest _).1).get? n = _
        exact ih _ n out₀ h
    | none =>
      cases j with
      | zero =>
        have : out = out₀ := Option.some.inj h
        subst this
        show some out = some (deducedOutput keys out)
        rw [deducedOutput, hws]
      | succ n =>
        show ((addToOutputs keys rest a).1).get? n = _
        exact ih a n out₀ h

theorem get?_none_of_le {α : Type} :
    ∀ (l : List α) (i : Nat), l.length ≤ i → l.get? i = none := by
  intro l
  induction l with
  | nil => intro i _; rfl
  | cons a rest ih =>
    intro i h
    cases i with
    | zero => exact absurd h (by simp)
    | succ n => exact ih n (Nat.succ_le_succ_iff.mp h)

theorem list_ext_get? {α : Type} :
    ∀ (l₁ l₂ : List α), (∀ n, l₁.get? n = l₂.get? n) → l₁ = l₂ := by
  intro l₁
  induction l₁ with
  | nil =>
    intro l₂ h
    cases l₂ with
    | nil => rfl
    | cons b bs => cases h 0
  | cons a rest ih =>
    intro l₂ h
    cases l₂ with
    | nil => cases h 0
    | cons b bs =>
      have h0 : a = b := Option.some.inj (h 0)
      rw [h0, ih bs (fun n => h (n + 1))]

/-- If every candidate key of the witness script is already recorded in the
input's `hd_keypaths` with the candidate value, the pre-pass leaves the input
as it is. -/
theorem deducedInput_noop (inp : Input)
    (hcond : ∀ ws, inp.witness_script = some ws →
      ∀ k v, k ∈ extractPubKeys ws → alistLookup k keys = some v →
        alistLookup k inp.hd_keypaths = some v) :
    deducedInput keys inp = inp := by
  cases hws : inp.witness_script with
  | none => simp only [deducedInput, hws]
  | some ws =>
    simp only [deducedInput, hws]
    rw [addKeysLoop_noop keys (extractPubKeys ws) inp.hd_keypaths false
      (hcond ws hws)]
    rw [← hws]

theorem deducedOutput_noop (out : Output)
    (hcond : ∀ ws, out.witness_script = some ws →
      ∀ k v, k ∈ extractPubKeys ws → alistLookup k keys = some v →
        alistLookup k out.hd_keypaths = some v) :
    deducedOutput keys out = out := by
  cases hws : out.witness_script with
  | none => simp only [deducedOutput, hws]
  | some ws =>
    simp only [deducedOutput, hws]
    rw [addKeysLoop_noop keys (extractPubKeys ws) out.hd_keypaths false
      (hcond ws hws)]
    rw [← hws]

theorem addToInputs_noop (L : List Input) (a : Bool)
    (hcond : ∀ inp ∈ L, ∀ ws, inp.witness_script = some ws →
      ∀ k v, k ∈ extractPubKeys ws → alistLookup k keys = some v →
        alistLookup k inp.hd_keypaths = some v) :
    (addToInputs keys L a).1 = L := by
  apply list_ext_get?
  intro n
  cases hn : L.get? n with
  | none =>
    rw [get?_none_of_le (addToInputs keys L a).1 n
      (by rw [addToInputs_length]; exact (List.get?_eq_none).mp hn)]
  | some inp₀ =>
    rw [addToInputs_get keys L a n inp₀ hn,
      deducedInput_noop keys inp₀ (fun ws hws =>
        hcond inp₀ (by
          have := lt_of_get?_some L n inp₀ hn
          exact List.get?_mem hn) ws hws)]

theorem addToOutputs_noop (L : List Output) (a : Bool)
    (hcond : ∀ out ∈ L, ∀ ws, out.witness_script = some ws →
      ∀ k v, k ∈ extractPubKeys ws → alistLookup k keys = some v →
        alistLookup k out.hd_keypaths = some v) :
    (addToOutputs keys L a).1 = L := by
  apply list_ext_get?
  intro n
  cases hn : L.get? n with
  | none =>
    rw [get?_none_of_le (addToOutputs keys L a).1 n
      (by rw [addToOutputs_length]; exact (List.get?_eq_none).mp hn)]
  | some out₀ =>
    rw [addToOutputs_get keys L a n out₀ hn,
      deducedOutput_noop keys out₀ (fun ws hws =>
        hcond out₀ (List.get?_mem hn) ws hws)]

end PrePass

end Firma

namespace Firma

/-! ### Pre-pass characterization and whole-call preservation -/

theorem init_not_triggered (p : Prims) (s : PSBTSigner)
    (h : ((s.psbt.inputs.any fun i => i.hd_keypaths.isEmpty) ||
          (s.psbt.outputs.any fun o => o.hd_keypaths.isEmpty)) = false) :
    PSBTSigner.init_hd_keypath_if_absent p s = (.ok false, s) := by
  simp only [PSBTSigner.init_hd_keypath_if_absent, h]
  rfl

theorem init_triggered (p : Prims) (s : PSBTSigner)
    (I₁ : List Input) (a₁ : Bool) (O₁ : List Output) (a₂ : Bool)
    (h : ((s.psbt.inputs.any fun i => i.hd_keypaths.isEmpty) ||
          (s.psbt.outputs.any fun o => o.hd_keypaths.isEmpty)) = true)
    (hder : ¬ 2 ^ 31 ≤ s.derivations)
    (hI : addToInputs (buildKeys p s.xprv s.derivations) s.psbt.inputs false =
      (I₁, a₁))
    (hO : addToOutputs (buildKeys p s.xprv s.derivations) s.psbt.outputs a₁ =
      (O₁, a₂)) :
    PSBTSigner.init_hd_keypath_if_absent p s =
      (.ok a₂,
       { s with psbt := { s.psbt with inputs := I₁, outputs := O₁ } }) := by
  simp only [PSBTSigner.init_hd_keypath_if_absent, h, hder, hI, hO]
  rfl

theorem init_err (p : Prims) (s : PSBTSigner)
    (h : ((s.psbt.inputs.any fun i => i.hd_keypaths.isEmpty) ||
          (s.psbt.outputs.any fun o => o.hd_keypaths.isEmpty)) = true)
    (hder : 2 ^ 31 ≤ s.derivations) :
    PSBTSigner.init_hd_keypath_if_absent p s =
      (.err ("invalid child number"), s) := by
  simp only [PSBTSigner.init_hd_keypath_if_absent, h, hder]
  rfl

/-- What the keypath pre-pass preserves, for every outcome. -/
theorem init_preserve (p : Prims) (s : PSBTSigner) (r : PResult Bool)
    (s' : PSBTSigner) (h : PSBTSigner.init_hd_keypath_if_absent p s = (r, s')) :
    s'.xprv = s.xprv ∧ s'.network = s.network ∧
    s'.derivations = s.derivations ∧ s'.signed_by = s.signed_by ∧
    s'.psbt.global = s.psbt.global ∧
    s'.psbt.inputs.length = s.psbt.inputs.length ∧
    s'.psbt.outputs.length = s.psbt.outputs.length ∧
    (∀ j inp₀, s.psbt.inputs.get? j = some inp₀ →
      ∃ H, s'.psbt.inputs.get? j = some { inp₀ with hd_keypaths := H } ∧
        (∀ k, (alistLookup k inp₀.hd_keypaths).isSome →
          (alistLookup k H).isSome) ∧
        ((inp₀.hd_keypaths.map Prod.fst).Nodup → (H.map Prod.fst).Nodup)) ∧
    (∀ j out₀, s.psbt.outputs.get? j = some out₀ →
      ∃ H, s'.psbt.outputs.get? j = some { out₀ with hd_keypaths := H } ∧
        (∀ k, (alistLookup k out₀.hd_keypaths).isSome →
          (alistLookup k H).isSome)) := by
  have hid : s' = s →
      s'.xprv = s.xprv ∧ s'.network = s.network ∧
      s'.derivations = s.derivations ∧ s'.signed_by = s.signed_by ∧
      s'.psbt.global = s.psbt.global ∧
      s'.psbt.inputs.length = s.psbt.inputs.length ∧
      s'.psbt.outputs.length = s.psbt.outputs.length ∧
      (∀ j inp₀, s.psbt.inputs.get? j = some inp₀ →
        ∃ H, s'.psbt.inputs.get? j = some { inp₀ with hd_keypaths := H } ∧
          (∀ k, (alistLookup k inp₀.hd_keypaths).isSome →
            (alistLookup k H).isSome) ∧
          ((inp₀.hd_keypaths.map Prod.fst).Nodup → (H.map Prod.fst).Nodup)) ∧
      (∀ j out₀, s.psbt.outputs.get? j = some out₀ →
        ∃ H, s'.psbt.outputs.get? j = some { out₀ with hd_keypaths := H } ∧
          (∀ k, (alistLookup k out₀.hd_keypaths).isSome →
            (alistLookup k H).isSome)) := by
    intro heq
    subst heq
    refine ⟨rfl, rfl, rfl, rfl, rfl, rfl, rfl, ?_, ?_⟩
    · intro j inp₀ h₀
      exact ⟨inp₀.hd_keypaths, by rw [h₀], fun k hk => hk, fun hn => hn⟩
    · intro j out₀ h₀
      exact ⟨out₀.hd_keypaths, by rw [h₀], fun k hk => hk⟩
  cases htr : ((s.psbt.inputs.any fun i => i.hd_keypaths.isEmpty) ||
      (s.psbt.outputs.any fun o => o.hd_keypaths.isEmpty)) with
  | false =>
    rw [init_not_triggered p s htr] at h
    exact hid (((Prod.mk.injEq _ _ _ _).mp h).2.symm)
  | true =>
    by_cases hder : 2 ^ 31 ≤ s.derivations
    · rw [init_err p s htr hder] at h
      exact hid (((Prod.mk.injEq _ _ _ _).mp h).2.symm)
    · rcases hI : addToInputs (buildKeys p s.xprv s.derivations)
        s.psbt.inputs false with ⟨I₁, a₁⟩
      rcases hO : addToOutputs (buildKeys p s.xprv s.derivations)
        s.psbt.outputs a₁ with ⟨O₁, a₂⟩
      rw [init_triggered p s I₁ a₁ O₁ a₂ htr hder hI hO] at h
      have hs : s' = { s with psbt :=
          { s.psbt with inputs := I₁, outputs := O₁ } } :=
        (Prod.mk.injEq _ _ _ _ |>.mp h.symm).2
      subst hs
      have hI1 : I₁ = (addToInputs (buildKeys p s.xprv s.derivations)
          s.psbt.inputs false).1 := by rw [hI]
      have hO1 : O₁ = (addToOutputs (buildKeys p s.xprv s.derivations)
          s.psbt.outputs a₁).1 := by rw [hO]
      refine ⟨rfl, rfl, rfl, rfl, rfl, ?_, ?_, ?_, ?_⟩
      · show I₁.length = s.psbt.inputs.length
        rw [hI1, addToInputs_length]
      · show O₁.length = s.psbt.outputs.length
        rw [hO1, addToOutputs_length]
      · intro j inp₀ h₀
        have hg : I₁.get? j =
            some (deducedInput (buildKeys p s.xprv s.derivations) inp₀) := by
          rw [hI1]
          exact addToInputs_get _ s.psbt.inputs false j inp₀ h₀
        cases hws : inp₀.witness_script with
        | none =>
          refine ⟨inp₀.hd_keypaths, ?_, fun k hk => hk, fun hn => hn⟩
          show I₁.get? j = _
          rw [hg]
          simp only [deducedInput, hws]
          rw [← hws]
        | some ws =>
          refine ⟨(addKeysLoop (buildKeys p s.xprv s.derivations)
            (extractPubKeys ws) inp₀.hd_keypaths false).1, ?_, ?_, ?_⟩
          · show I₁.get? j = _
            rw [hg]
            simp only [deducedInput, hws]
          · intro k hk
            exact addKeysLoop_isSome _ (extractPubKeys ws)
              inp₀.hd_keypaths false k hk
          · intro hn
            exact addKeysLoop_nodup _ (extractPubKeys ws)
              inp₀.hd_keypaths false hn
      · intro j out₀ h₀
        have hg : O₁.get? j =
            some (deducedOutput (buildKeys p s.xprv s.derivations) out₀) := by
          rw [hO1]
          exact addToOutputs_get _ s.psbt.outputs a₁ j out₀ h₀
        cases hws : out₀.witness_script with
        | none =>
          refine ⟨out₀.hd_keypaths, ?_, fun k hk => hk⟩
          show O₁.get? j = _
          rw [hg]
          simp only [deducedOutput, hws]
          rw [← hws]
        | some ws =>
          refine ⟨(addKeysLoop (buildKeys p s.xprv s.derivations)
            (extractPubKeys ws) out₀.hd_keypaths false).1, ?_, ?_⟩
          · show O₁.get? j = _
            rw [hg]
            simp only [deducedOutput, hws]
          · intro k hk
            exact addKeysLoop_isSome _ (extractPubKeys ws)
              out₀.hd_keypaths false k hk

end Firma

namespace Firma

/-- What a call to `PSBTSigner.sign` preserves of the PSBT it was given —
stated for every outcome (success, error or panic).  Script fields, UTXO
fields, the sighash type and the global transaction keep their exact values;
`partial_sigs` and `hd_keypaths` keep every key they had (values can only be
overwritten by freshly computed ones, never removed). -/
structure Preserves (s s' : PSBTSigner) : Prop where
  global_eq : s'.psbt.global = s.psbt.global
  inputs_len : s'.psbt.inputs.length = s.psbt.inputs.length
  outputs_len : s'.psbt.outputs.length = s.psbt.outputs.length
  inputs : ∀ j inp inp', s.psbt.inputs.get? j = some inp →
    s'.psbt.inputs.get? j = some inp' →
      inp'.non_witness_utxo = inp.non_witness_utxo ∧
      inp'.witness_utxo = inp.witness_utxo ∧
      inp'.redeem_script = inp.redeem_script ∧
      inp'.witness_script = inp.witness_script ∧
      inp'.sighash_type = inp.sighash_type ∧
      (∀ k, (alistLookup k inp.partial_sigs).isSome →
        (alistLookup k inp'.partial_sigs).isSome) ∧
      (∀ k, (alistLookup k inp.hd_keypaths).isSome →
        (alistLookup k inp'.hd_keypaths).isSome)
  outputs : ∀ j out out', s.psbt.outputs.get? j = some out →
    s'.psbt.outputs.get? j = some out' →
      out'.witness_script = out.witness_script ∧
      (∀ k, (alistLookup k out.hd_keypaths).isSome →
        (alistLookup k out'.hd_keypaths).isSome)

theorem sign_eq_init_fail (p : Prims) (s : PSBTSigner) (m : String)
    (s₁ : PSBTSigner)
    (h : PSBTSigner.init_hd_keypath_if_absent p s = (.err m, s₁)) :
    PSBTSigner.sign p s = (.err m, s₁) := by
  rw [PSBTSigner.sign, h]

theorem sign_eq_init_crash (p : Prims) (s : PSBTSigner) (m : String)
    (s₁ : PSBTSigner)
    (h : PSBTSigner.init_hd_keypath_if_absent p s = (.panic m, s₁)) :
    PSBTSigner.sign p s = (.panic m, s₁) := by
  rw [PSBTSigner.sign, h]

/-- `sign` in terms of the pre-pass result and the input-loop result. -/
theorem sign_eq_loop (p : Prims) (s : PSBTSigner) (a : Bool)
    (s₁ : PSBTSigner) (r₁ : PResult Unit) (s₂ : PSBTSigner)
    (hinit : PSBTSigner.init_hd_keypath_if_absent p s = (.ok a, s₁))
    (hloop : signLoop p s₁.psbt.inputs 0 s₁ = (r₁, s₂)) :
    PSBTSigner.sign p s =
      (match r₁ with
       | .ok _ =>
         (.ok { signed := decide (s₂.psbt.inputs ≠ s.psbt.inputs),
                added_paths := a }, s₂)
       | .err m => (.err m, s₂)
       | .panic m => (.panic m, s₂)) := by
  rw [PSBTSigner.sign, hinit]
  show (match signLoop p s₁.psbt.inputs 0 s₁ with
    | (PResult.ok _, s₂) =>
      (PResult.ok (SignResult.mk (decide (s₂.psbt.inputs ≠ s.psbt.inputs)) a),
        s₂)
    | (PResult.err m, s₂) => (PResult.err m, s₂)
    | (PResult.panic m, s₂) => (PResult.panic m, s₂)) = _
  simp only [hloop]
  cases r₁ with
  | ok u => rfl
  | err m => rfl
  | panic m => rfl

/-- Every call to `sign` — succeeding, erroring or panicking — only ever adds
map entries to the PSBT; it removes nothing and keeps all script and UTXO
fields. -/
theorem sign_outcome_preserve (p : Prims) (s : PSBTSigner)
    (r : PResult SignResult) (s' : PSBTSigner)
    (h : PSBTSigner.sign p s = (r, s')) : Preserves s s' := by
  rcases hinit : PSBTSigner.init_hd_keypath_if_absent p s with ⟨r₀, s₁⟩
  have hpi := init_preserve p s r₀ s₁ hinit
  have fromInit : s' = s₁ → Preserves s s' := by
    intro hs
    subst hs
    refine ⟨hpi.2.2.2.2.1, hpi.2.2.2.2.2.1, hpi.2.2.2.2.2.2.1, ?_, ?_⟩
    · intro j inp inp' hold hnew
      rcases hpi.2.2.2.2.2.2.2.1 j inp hold with ⟨H, hmid, hgrowH, _⟩
      have heq : inp' = { inp with hd_keypaths := H } :=
        Option.some.inj (hnew.symm.trans hmid)
      subst heq
      exact ⟨rfl, rfl, rfl, rfl, rfl, fun k hk => hk, fun k hk => hgrowH k hk⟩
    · intro j out out' hold hnew
      rcases hpi.2.2.2.2.2.2.2.2 j out hold with ⟨H, hmid, hgrowH⟩
      have heq : out' = { out with hd_keypaths := H } :=
        Option.some.inj (hnew.symm.trans hmid)
      subst heq
      exact ⟨rfl, fun k hk => hgrowH k hk⟩
  cases r₀ with
  | err m =>
    rw [sign_eq_init_fail p s m s₁ hinit] at h
    exact fromInit ((Prod.mk.injEq _ _ _ _ |>.mp h).2.symm)
  | panic m =>
    rw [sign_eq_init_crash p s m s₁ hinit] at h
    exact fromInit ((Prod.mk.injEq _ _ _ _ |>.mp h).2.symm)
  | ok a =>
    rcases hloop : signLoop p s₁.psbt.inputs 0 s₁ with ⟨r₁, s₂⟩
    rw [sign_eq_loop p s a s₁ r₁ s₂ hinit hloop] at h
    have hs : s' = s₂ := by
      cases r₁ with
      | ok u => exact ((Prod.mk.injEq _ _ _ _).mp h).2.symm
      | err m => exact ((Prod.mk.injEq _ _ _ _).mp h).2.symm
      | panic m => exact ((Prod.mk.injEq _ _ _ _).mp h).2.symm
    rw [hs]
    have hpl := signLoop_preserve p s₁.psbt.inputs 0 s₁ r₁ s₂ hloop
    refine ⟨hpl.1.trans hpi.2.2.2.2.1, hpl.2.2.2.2.2.1.trans hpi.2.2.2.2.2.1,
      ?_, ?_, ?_⟩
    · rw [hpl.2.1]
      exact hpi.2.2.2.2.2.2.1
    · intro j inp inp' hold hnew
      rcases hpi.2.2.2.2.2.2.2.1 j inp hold with ⟨H, hmid, hgrowH, _⟩
      rcases hpl.2.2.2.2.2.2.2.2 j _ hmid with ⟨Q, hfin, hgrowQ⟩
      have heq : inp' = { inp with hd_keypaths := H, partial_sigs := Q } :=
        Option.some.inj (hnew.symm.trans hfin)
      subst heq
      exact ⟨rfl, rfl, rfl, rfl, rfl, fun k hk => hgrowQ k hk,
        fun k hk => hgrowH k hk⟩
    · intro j out out' hold hnew
      rcases hpi.2.2.2.2.2.2.2.2 j out hold with ⟨H, hmid, hgrowH⟩
      rw [hpl.2.1] at hnew
      have heq : out' = { out with hd_keypaths := H } :=
        Option.some.inj (hnew.symm.trans hmid)
      subst heq
      exact ⟨rfl, fun k hk => hgrowH k hk⟩

end Firma

namespace Firma

/-! ### Concrete instantiation of the external primitives, and fixtures -/

/-- A concrete instantiation of the external primitives, used to evaluate the
signer on closed inputs (the theorems themselves hold for every `Prims`). -/
def trivPrims : Prims where
  txid := fun _ => 0
  hash160 := fun _ => List.replicate 20 0
  sha256 := fun _ => List.replicate 32 0
  ckd := fun x _ => x
  pubOf := fun x => 2 :: x.key :: List.replicate 31 0
  fingerprintOf := fun x => x.key
  sighashLegacy := fun _ _ _ _ => 0
  sighashAllSegwit := fun _ _ _ _ => 0
  ecdsaSign := fun h x => [h, x.key]

def xprv5 : XPrv := ⟨Network.testnet, 5⟩

/-- The compressed public key `trivPrims` assigns to `xprv5`. -/
def K5 : List Nat := 2 :: 5 :: List.replicate 31 0

def prevtx : Transaction := ⟨1, 0, [], [⟨10, [1, 2, 3]⟩]⟩

def unsigned1 : Transaction := ⟨1, 0, [⟨⟨0, 0⟩⟩], []⟩

/-- A legacy input carrying a keypath for our key but no `sighash_type`. -/
def input1 : Input :=
  { non_witness_utxo := some prevtx, hd_keypaths := [(K5, 5, [])] }

def signer1 : PSBTSigner :=
  ⟨⟨⟨unsigned1⟩, [input1], []⟩, xprv5, Network.testnet, 0, []⟩

/-- An input with neither `non_witness_utxo` nor `witness_utxo`. -/
def input2a : Input := { hd_keypaths := [(K5, 5, [])] }

def signer2a : PSBTSigner :=
  ⟨⟨⟨unsigned1⟩, [input2a], []⟩, xprv5, Network.testnet, 0, []⟩

/-- A non-P2WPKH witness input without a `witness_script`. -/
def input2b : Input :=
  { witness_utxo := some ⟨7, [9, 9]⟩, hd_keypaths := [(K5, 5, [])] }

def signer2b : PSBTSigner :=
  ⟨⟨⟨unsigned1⟩, [input2b], []⟩, xprv5, Network.testnet, 0, []⟩

/-- A signable legacy input (sighash type SIGHASH_ALL present). -/
def inputA3 : Input :=
  { non_witness_utxo := some prevtx, sighash_type := some 1,
    hd_keypaths := [(K5, 5, [])] }

/-- A legacy input whose prevout txid does not match its
`non_witness_utxo`. -/
def inputB3 : Input :=
  { non_witness_utxo := some prevtx, hd_keypaths := [(K5, 5, [])] }

def unsigned3 : Transaction := ⟨1, 0, [⟨⟨0, 0⟩⟩, ⟨⟨1, 0⟩⟩], []⟩

def signer3 : PSBTSigner :=
  ⟨⟨⟨unsigned3⟩, [inputA3, inputB3], []⟩, xprv5, Network.testnet, 0, []⟩

/-- A witness script pushing the 33-byte key `K5`. -/
def ws4 : Script := 33 :: K5

/-- `toV0P2wsh trivPrims ws4`. -/
def spkA4 : Script := 0 :: 32 :: List.replicate 32 0

/-- A P2WSH input without keypaths, deducible from its witness script. -/
def inputA4 : Input :=
  { witness_utxo := some ⟨7, spkA4⟩, witness_script := some ws4 }

/-- A P2WPKH input that never gets keypaths (no witness script). -/
def inputB4 : Input :=
  { witness_utxo := some ⟨3, 0 :: 20 :: List.replicate 20 0⟩ }

def unsigned4 : Transaction := ⟨1, 0, [⟨⟨0, 0⟩⟩, ⟨⟨0, 0⟩⟩], []⟩

def signer4 : PSBTSigner :=
  ⟨⟨⟨unsigned4⟩, [inputA4, inputB4], []⟩, xprv5, Network.testnet, 0, []⟩

/-- A signable legacy input that already carries a `partial_sigs` entry for
`K5` whose bytes differ from the signature the signer computes. -/
def inputC5 : Input :=
  { non_witness_utxo := some prevtx, sighash_type := some 1,
    hd_keypaths := [(K5, 5, [])], partial_sigs := [(K5, [9])] }

def signer5 : PSBTSigner :=
  ⟨⟨⟨unsigned1⟩, [inputC5], []⟩, xprv5, Network.testnet, 0, []⟩

/-! ### Claim C7 : the network gate of `PSBTSigner::new` -/

/-- C7: construction fails with the network-mismatch error exactly when the
declared network differs from `xprv.network` and the pair is not
(declared regtest, xprv testnet); otherwise it succeeds, returning the
signer struct. -/
theorem C7_network_gate (psbt : PSBT) (xprv : XPrv) (network : Network)
    (d : Nat) :
    (PSBTSigner.new psbt xprv network d =
      .err ("Master key network is different from the network passed through cli")
      ↔ (network ≠ xprv.network ∧
         ¬(network = Network.regtest ∧ xprv.network = Network.testnet))) ∧
    ((network = xprv.network ∨
      (network = Network.regtest ∧ xprv.network = Network.testnet)) →
      PSBTSigner.new psbt xprv network d = .ok ⟨psbt, xprv, network, d, []⟩) := by
  obtain ⟨nx, kx⟩ := xprv
  cases network <;> cases nx <;>
    simp [PSBTSigner.new]

/-- C7 witness: a regtest-declared construction against a testnet key
succeeds, and a mainnet-declared construction against a testnet key fails
with the network-mismatch error. -/
theorem C7_network_gate_witness :
    PSBTSigner.new ⟨⟨unsigned1⟩, [], []⟩ xprv5 Network.regtest 0 =
      .ok ⟨⟨⟨unsigned1⟩, [], []⟩, xprv5, Network.regtest, 0, []⟩ ∧
    PSBTSigner.new ⟨⟨unsigned1⟩, [], []⟩ xprv5 Network.bitcoin 0 =
      .err ("Master key network is different from the network passed through cli") :=
  ⟨(C7_network_gate ⟨⟨unsigned1⟩, [], []⟩ xprv5 Network.regtest 0).2
      (Or.inr (by decide)),
   (C7_network_gate ⟨⟨unsigned1⟩, [], []⟩ xprv5 Network.bitcoin 0).1.mpr
      (by decide)⟩

/-! ### Claim C8 : two-step derivation `m/i` then `m/j` equals `m/i/j` -/

/-- C8: for non-hardened `i`, `j`, deriving `m/i` from the master and then
`m/j` from that child yields the same extended key — hence the same public
key — as the single derivation `m/i/j`; consequently the candidate the
PathDeducer stores under `m/i/j` is the key at `m/i/j`. -/
theorem C8_two_step_derivation (p : Prims) (xprv : XPrv) (i j : Nat)
    (hi : i < 2 ^ 31) (hj : j < 2 ^ 31) :
    derivePriv p (derivePriv p xprv [i]) [j] = derivePriv p xprv [i, j] ∧
    p.pubOf (derivePriv p (derivePriv p xprv [i]) [j]) =
      p.pubOf (derivePriv p xprv [i, j]) ∧
    (∀ (fing : Nat) (js : List Nat) (keys : List (List Nat × Nat × List Nat)),
      buildKeysRow p (derivePriv p xprv [i]) fing i (j :: js) keys =
        buildKeysRow p (derivePriv p xprv [i]) fing i js
          (alistInsert (p.pubOf (derivePriv p xprv [i, j])) (fing, [i, j])
            keys)) :=
  ⟨rfl, rfl, fun _ _ _ => rfl⟩

/-- C8 witness at concrete non-hardened indices. -/
theorem C8_two_step_derivation_witness :
    0 < 2 ^ 31 ∧ 1 < 2 ^ 31 ∧
    derivePriv trivPrims (derivePriv trivPrims xprv5 [0]) [1] =
      derivePriv trivPrims xprv5 [0, 1] :=
  ⟨by decide, by decide,
   (C8_two_step_derivation trivPrims xprv5 0 1 (by decide) (by decide)).1⟩

/-! ### Claim C9 : the `signed` flag -/

/-- C9: on success, `signed` is true exactly when the inputs vector differs
from its value at entry to `sign` — the baseline is taken before the
PathDeducer runs, so a keypath insertion alone already sets `signed`. -/
theorem C9_signed_flag (p : Prims) (s : PSBTSigner) (r : SignResult)
    (s' : PSBTSigner) (h : PSBTSigner.sign p s = (.ok r, s')) :
    r.signed = true ↔ s'.psbt.inputs ≠ s.psbt.inputs := by
  rcases hinit : PSBTSigner.init_hd_keypath_if_absent p s with ⟨r₀, s₁⟩
  cases r₀ with
  | err m =>
    rw [sign_eq_init_fail p s m s₁ hinit] at h
    exact PResult.noConfusion ((Prod.mk.injEq _ _ _ _ |>.mp h).1)
  | panic m =>
    rw [sign_eq_init_crash p s m s₁ hinit] at h
    exact PResult.noConfusion ((Prod.mk.injEq _ _ _ _ |>.mp h).1)
  | ok a =>
    rcases hloop : signLoop p s₁.psbt.inputs 0 s₁ with ⟨r₁, s₂⟩
    rw [sign_eq_loop p s a s₁ r₁ s₂ hinit hloop] at h
    cases r₁ with
    | ok u =>
      obtain ⟨h₁, h₂⟩ := Prod.mk.injEq _ _ _ _ |>.mp h
      have hr := PResult.ok.inj h₁
      subst h₂
      rw [← hr]
      simp
    | err m => exact PResult.noConfusion ((Prod.mk.injEq _ _ _ _ |>.mp h).1)
    | panic m => exact PResult.noConfusion ((Prod.mk.injEq _ _ _ _ |>.mp h).1)

/-- C9 witness: a successful concrete run whose keypath-and-signature
additions set `signed`. -/
theorem C9_signed_flag_witness :
    SignResult.signed ⟨true, false⟩ = true ↔
      (PSBTSigner.sign trivPrims signer5).2.psbt.inputs ≠
        signer5.psbt.inputs :=
  C9_signed_flag trivPrims signer5 ⟨true, false⟩
    (PSBTSigner.sign trivPrims signer5).2 (by decide)

end Firma

namespace Firma

/-! ### Claim C1 : which sighash the signer computes -/

/-- C1 counterexample: the claim says a signable legacy input with absent
`sighash_type` gets its digest computed with SIGHASH_ALL; instead the call
fails with the "sighash empty" error, computing no digest at all.  `input1`
is legacy (`non_witness_utxo` present), its `sighash_type` is absent, and its
single keypath entry matches the signer fingerprint and derived key. -/
theorem C1_counterexample :
    input1.non_witness_utxo.isSome = true ∧
    input1.sighash_type = none ∧
    (PSBTSigner.sign trivPrims signer1).1 = .err ("sighash empty") := by
  decide

/-- C1 amended: for an entry with matching fingerprint and derived key, the
legacy path uses `input.sighash_type` for the digest and fails with
"sighash empty" when it is absent (no SIGHASH_ALL default); the SegWit path
always computes the BIP143 SIGHASH_ALL digest, `sighash_type` only selecting
the byte appended to the DER signature (defaulting to `0x01`). -/
theorem C1_amended (p : Prims) (xprv : XPrv) (tx : Transaction)
    (wutxo : Option TxOut) (sighashT : Option Nat) (script : Script)
    (idx : Nat) (myFing : Nat)
    (st : List (List Nat × List Nat) × List Nat)
    (pk : List Nat) (fing : Nat) (child : List Nat)
    (hf : fing = myFing) (hpk : pk = p.pubOf (derivePriv p xprv child)) :
    (signEntry p xprv tx false wutxo sighashT script idx myFing st
        (pk, fing, child) =
      match sighashT with
      | none => .err ("sighash empty")
      | some t =>
        .ok (alistInsert pk
              (p.ecdsaSign (p.sighashLegacy tx idx script t)
                (derivePriv p xprv child) ++ [t % 256]) st.1,
             insertSet fing st.2)) ∧
    (∀ w txin, wutxo = some w → tx.input.get? idx = some txin →
      signEntry p xprv tx true wutxo sighashT script idx myFing st
          (pk, fing, child) =
        .ok (alistInsert pk
              (p.ecdsaSign (p.sighashAllSegwit tx txin script w.value)
                (derivePriv p xprv child) ++ [sighashT.getD 1 % 256]) st.1,
             insertSet fing st.2)) := by
  constructor
  · cases sighashT with
    | none => simp [signEntry, hf, hpk]
    | some t => simp [signEntry, hf, hpk]
  · intro w txin hw htx
    subst hw
    simp only [signEntry, htx]
    simp [hf, hpk]

/-- C1 witness: the legacy branch with absent `sighash_type` errs. -/
theorem C1_amended_witness :
    signEntry trivPrims xprv5 unsigned1 false none none [1, 2, 3] 0 5
      ([], []) (K5, 5, []) = .err ("sighash empty") :=
  (C1_amended trivPrims xprv5 unsigned1 none none [1, 2, 3] 0 5 ([], [])
    K5 5 [] (by decide) (by decide)).1

/-! ### Claim C2 : missing-field handling panics instead of erroring -/

theorem classify_missing_both (p : Prims) (tx : Transaction) (inp : Input)
    (i : Nat) (h₁ : inp.non_witness_utxo = none)
    (h₂ : inp.witness_utxo = none) :
    classify p tx inp i = .panic ("both witness_utxo and non_witness_utxo are none") := by
  simp [classify, h₁, h₂]

theorem classify_missing_ws (p : Prims) (tx : Transaction) (inp : Input)
    (i : Nat) (w : TxOut) (h₁ : inp.non_witness_utxo = none)
    (h₂ : inp.witness_utxo = some w) (h₃ : inp.redeem_script = none)
    (h₄ : isV0P2wpkh w.script_pubkey = false)
    (h₅ : inp.witness_script = none) :
    classify p tx inp i = .panic ("witness_script is none") := by
  simp [classify, h₁, h₂, h₃, h₄, h₅]

theorem cons_of_get?_zero {α : Type} (l : List α) (x : α)
    (h : l.get? 0 = some x) : ∃ t, l = x :: t := by
  cases l with
  | nil => cases h
  | cons a t => exact ⟨t, by rw [Option.some.inj h]⟩

/-- With a derivation bound below `2^31` the keypath pre-pass cannot fail. -/
theorem init_ok_of_derivations_lt (p : Prims) (s : PSBTSigner)
    (hder : s.derivations < 2 ^ 31) :
    ∃ a s₁, PSBTSigner.init_hd_keypath_if_absent p s = (.ok a, s₁) := by
  cases htr : ((s.psbt.inputs.any fun i => i.hd_keypaths.isEmpty) ||
      (s.psbt.outputs.any fun o => o.hd_keypaths.isEmpty)) with
  | false => exact ⟨false, s, init_not_triggered p s htr⟩
  | true =>
    rcases hI : addToInputs (buildKeys p s.xprv s.derivations)
      s.psbt.inputs false with ⟨I₁, a₁⟩
    rcases hO : addToOutputs (buildKeys p s.xprv s.derivations)
      s.psbt.outputs a₁ with ⟨O₁, a₂⟩
    exact ⟨a₂, _,
      init_triggered p s I₁ a₁ O₁ a₂ htr (Nat.not_le.mpr hder) hI hO⟩

/-- C2 amended: an input with neither UTXO field, or a non-P2WPKH witness
input without a `witness_script`, makes `sign` crash through
`Option::expect` (a panic naming the missing field), not return a `Result`
error. -/
theorem C2_amended (p : Prims) (s : PSBTSigner) (inp : Input)
    (rest : List Input) (hins : s.psbt.inputs = inp :: rest)
    (hder : s.derivations < 2 ^ 31) :
    (inp.non_witness_utxo = none → inp.witness_utxo = none →
      (PSBTSigner.sign p s).1 =
        .panic ("both witness_utxo and non_witness_utxo are none")) ∧
    (∀ w, inp.non_witness_utxo = none → inp.witness_utxo = some w →
      inp.redeem_script = none → isV0P2wpkh w.script_pubkey = false →
      inp.witness_script = none →
      (PSBTSigner.sign p s).1 = .panic ("witness_script is none")) := by
  rcases init_ok_of_derivations_lt p s hder with ⟨a, s₁, hinit⟩
  have hpi := init_preserve p s (.ok a) s₁ hinit
  have h0 : s.psbt.inputs.get? 0 = some inp := by rw [hins]; rfl
  rcases hpi.2.2.2.2.2.2.2.1 0 inp h0 with ⟨H, h0', _, _⟩
  rcases cons_of_get?_zero s₁.psbt.inputs _ h0' with ⟨rest', hs₁⟩
  have run : ∀ m : String,
      classify p s₁.psbt.global.unsigned_tx { inp with hd_keypaths := H } 0 =
        .panic m → (PSBTSigner.sign p s).1 = .panic m := by
    intro m hcl
    have hone : signOneInput p { inp with hd_keypaths := H } 0 s₁ =
        (.panic m, s₁) :=
      signOneInput_classify_panic p _ 0 s₁ m hcl
    have hloop : signLoop p s₁.psbt.inputs 0 s₁ = (.panic m, s₁) := by
      rw [hs₁, signLoop, hone]
    rw [sign_eq_loop p s a s₁ (.panic m) s₁ hinit hloop]
  constructor
  · intro h₁ h₂
    exact run _ (classify_missing_both p _ _ 0 h₁ h₂)
  · intro w h₁ h₂ h₃ h₄ h₅
    exact run _ (classify_missing_ws p _ _ 0 w h₁ h₂ h₃ h₄ h₅)

/-- C2 counterexample: on both missing-field shapes the call crashes with a
panic; it does not return a `Result` error value. -/
theorem C2_counterexample :
    (PSBTSigner.sign trivPrims signer2a).1 =
      .panic ("both witness_utxo and non_witness_utxo are none") ∧
    (∀ m, (PSBTSigner.sign trivPrims signer2a).1 ≠ .err m) ∧
    (PSBTSigner.sign trivPrims signer2b).1 =
      .panic ("witness_script is none") ∧
    (∀ m, (PSBTSigner.sign trivPrims signer2b).1 ≠ .err m) := by
  refine ⟨by decide, ?_, by decide, ?_⟩
  · intro m hm
    rw [show (PSBTSigner.sign trivPrims signer2a).1 =
      .panic ("both witness_utxo and non_witness_utxo are none") from by decide]
      at hm
    exact PResult.noConfusion hm
  · intro m hm
    rw [show (PSBTSigner.sign trivPrims signer2b).1 =
      .panic ("witness_script is none") from by decide] at hm
    exact PResult.noConfusion hm

/-- C2 witness: the amended statement applied to the concrete fixtures. -/
theorem C2_amended_witness :
    (PSBTSigner.sign trivPrims signer2a).1 =
      .panic ("both witness_utxo and non_witness_utxo are none") ∧
    (PSBTSigner.sign trivPrims signer2b).1 =
      .panic ("witness_script is none") :=
  ⟨(C2_amended trivPrims signer2a input2a [] (by decide) (by decide)).1
      (by decide) (by decide),
   (C2_amended trivPrims signer2b input2b [] (by decide) (by decide)).2
      ⟨7, [9, 9]⟩ (by decide) (by decide) (by decide) (by decide) (by decide)⟩

end Firma

namespace Firma

/-! ### Claim C3 : state left behind by a failing call -/

/-- C3 counterexample: a call failing at the second input (prevout mismatch)
leaves the signature it already inserted at the first input — contradicting
"partial_sigs of every input is unchanged" on a mid-call failure. -/
theorem C3_counterexample :
    (PSBTSigner.sign trivPrims signer3).1 =
      .err ("prevout doesn't match non_witness_utxo") ∧
    (PSBTSigner.sign trivPrims signer3).2.psbt.inputs.map
      Input.partial_sigs ≠
      signer3.psbt.inputs.map Input.partial_sigs := by
  decide

/-- C3 amended: a failing call (error or panic) may leave both added
`hd_keypaths` and partial signatures inserted for the inputs processed
before the failure; it still never removes or modifies any pre-existing
script or UTXO field and never removes a map key. -/
theorem C3_amended (p : Prims) (s : PSBTSigner) (m : String)
    (s' : PSBTSigner)
    (h : PSBTSigner.sign p s = (.err m, s') ∨
         PSBTSigner.sign p s = (.panic m, s')) :
    Preserves s s' := by
  rcases h with h | h
  · exact sign_outcome_preserve p s (.err m) s' h
  · exact sign_outcome_preserve p s (.panic m) s' h

/-- C3 witness: the failing fixture still satisfies the preservation
relation. -/
theorem C3_amended_witness :
    Preserves signer3 (PSBTSigner.sign trivPrims signer3).2 :=
  C3_amended trivPrims signer3 ("prevout doesn't match non_witness_utxo")
    (PSBTSigner.sign trivPrims signer3).2 (Or.inl (by decide))

/-! ### Claim C5 : additivity of a successful call -/

/-- C5 counterexample: a successful call overwrites an existing
`partial_sigs` entry whose bytes differ from the recomputed signature — the
key survives but not the value, contradicting "still present with the same
value ... never modifies existing ones". -/
theorem C5_counterexample :
    (PSBTSigner.sign trivPrims signer5).1 = .ok ⟨true, false⟩ ∧
    signer5.psbt.inputs.get? 0 = some inputC5 ∧
    alistLookup K5 inputC5.partial_sigs = some [9] ∧
    (PSBTSigner.sign trivPrims signer5).2.psbt.inputs.get? 0 =
      some { inputC5 with partial_sigs := [(K5, [0, 5, 1])] } ∧
    ([0, 5, 1] : List Nat) ≠ [9] := by
  decide

/-- C5 amended: a successful call keeps every script, UTXO and sighash field
at its exact value, keeps the global transaction and the input/output
counts, and keeps every existing `partial_sigs` / `hd_keypaths` key — though
the value under an existing key may be overwritten (a recomputed signature,
a deduced keypath); no entry is ever removed. -/
theorem C5_amended (p : Prims) (s : PSBTSigner) (r : SignResult)
    (s' : PSBTSigner) (h : PSBTSigner.sign p s = (.ok r, s')) :
    Preserves s s' :=
  sign_outcome_preserve p s (.ok r) s' h

/-- C5 witness: the successful fixture satisfies the preservation
relation. -/
theorem C5_amended_witness :
    Preserves signer5 (PSBTSigner.sign trivPrims signer5).2 :=
  C5_amended trivPrims signer5 ⟨true, false⟩
    (PSBTSigner.sign trivPrims signer5).2 (by decide)

end Firma

namespace Firma

/-! ### Claim C10 : an input carrying both UTXO fields -/

/-- C10: an input with a `non_witness_utxo` is processed by the legacy
(non-witness) branch regardless of its `witness_utxo`: replacing the
`witness_utxo` by anything (including dropping it) changes neither the
outcome of the loop iteration nor the resulting `partial_sigs` or
`hd_keypaths` of any input — there is no double-presence validation error,
and the `witness_utxo` plays no part in classification or sighash
selection. -/
theorem C10_both_utxos (p : Prims) (u : Transaction) (x : Option TxOut)
    (inp : Input) (i : Nat) (s : PSBTSigner)
    (hn : inp.non_witness_utxo = some u)
    (hlive : s.psbt.inputs.get? i = some inp) :
    (signOneInput p { inp with witness_utxo := x } i
        (setInput s i { inp with witness_utxo := x })).1 =
      (signOneInput p inp i s).1 ∧
    (signOneInput p { inp with witness_utxo := x } i
        (setInput s i { inp with witness_utxo := x })).2.psbt.inputs.map
        Input.partial_sigs =
      (signOneInput p inp i s).2.psbt.inputs.map Input.partial_sigs ∧
    (signOneInput p { inp with witness_utxo := x } i
        (setInput s i { inp with witness_utxo := x })).2.psbt.inputs.map
        Input.hd_keypaths =
      (signOneInput p inp i s).2.psbt.inputs.map Input.hd_keypaths := by
  have hcl : classify p
      (setInput s i { inp with witness_utxo := x }).psbt.global.unsigned_tx
      { inp with witness_utxo := x } i =
      classify p s.psbt.global.unsigned_tx inp i :=
    classify_nonwitness_wutxo p s.psbt.global.unsigned_tx inp i u x hn
  have hlt : i < s.psbt.inputs.length := lt_of_get?_some _ i _ hlive
  have hlive' : (setInput s i
      { inp with witness_utxo := x }).psbt.inputs.get? i =
      some { inp with witness_utxo := x } :=
    get?_set_self s.psbt.inputs i _ hlt
  have hmap : ∀ {β : Type} (f : Input → β), f { inp with witness_utxo := x } = f inp →
      (s.psbt.inputs.set i { inp with witness_utxo := x }).map f =
        s.psbt.inputs.map f := by
    intro β f hf
    exact map_set_outside s.psbt.inputs i _ f
      (fun b hb => by rw [hf, Option.some.inj (hlive.symm.trans hb)])
  cases hcr : classify p s.psbt.global.unsigned_tx inp i with
  | err m =>
    rw [signOneInput_classify_err p inp i s m hcr,
      signOneInput_classify_err p _ i _ m (hcl.trans hcr)]
    exact ⟨rfl, hmap Input.partial_sigs rfl, hmap Input.hd_keypaths rfl⟩
  | panic m =>
    rw [signOneInput_classify_panic p inp i s m hcr,
      signOneInput_classify_panic p _ i _ m (hcl.trans hcr)]
    exact ⟨rfl, hmap Input.partial_sigs rfl, hmap Input.hd_keypaths rfl⟩
  | ok script =>
    rw [signOneInput_classify_ok p inp i s script hcr,
      signOneInput_classify_ok p _ i _ script (hcl.trans hcr)]
    have hIs : inp.non_witness_utxo.isNone = false := by rw [hn]; rfl
    rcases hse : signEntries p s.xprv s.psbt.global.unsigned_tx
        inp.non_witness_utxo.isNone inp.witness_utxo inp.sighash_type script i
        (p.fingerprintOf s.xprv) inp.hd_keypaths
        (inp.partial_sigs, s.signed_by) with ⟨r, Q, B⟩
    have hse' : signEntries p s.xprv s.psbt.global.unsigned_tx
        inp.non_witness_utxo.isNone x inp.sighash_type script i
        (p.fingerprintOf s.xprv) inp.hd_keypaths
        (inp.partial_sigs, s.signed_by) = (r, (Q, B)) := by
      rw [hIs] at hse ⊢
      rw [signEntries_nonwitness_wutxo_irrel p s.xprv
        s.psbt.global.unsigned_tx inp.sighash_type script i
        (p.fingerprintOf s.xprv) x inp.witness_utxo]
      exact hse
    rw [sign_input_eq p s script i inp hlive r Q B hse]
    rw [sign_input_eq p (setInput s i { inp with witness_utxo := x }) script i
      { inp with witness_utxo := x } hlive' r Q B hse']
    refine ⟨rfl, ?_, ?_⟩
    · show ((s.psbt.inputs.set i { inp with witness_utxo := x }).set i
        { inp with witness_utxo := x, partial_sigs := Q }).map
          Input.partial_sigs =
        (s.psbt.inputs.set i { inp with partial_sigs := Q }).map
          Input.partial_sigs
      rw [set_set']
      exact map_set_congr s.psbt.inputs i _ _ Input.partial_sigs rfl
    · show ((s.psbt.inputs.set i { inp with witness_utxo := x }).set i
        { inp with witness_utxo := x, partial_sigs := Q }).map
          Input.hd_keypaths =
        (s.psbt.inputs.set i { inp with partial_sigs := Q }).map
          Input.hd_keypaths
      rw [set_set']
      exact map_set_congr s.psbt.inputs i _ _ Input.hd_keypaths rfl

/-- C10 witness: concrete input with both UTXO fields present behaves as the
legacy branch. -/
theorem C10_both_utxos_witness :
    (signOneInput trivPrims { inputC5 with witness_utxo := some ⟨7, [9, 9]⟩ }
        0 (setInput signer5 0
          { inputC5 with witness_utxo := some ⟨7, [9, 9]⟩ })).1 =
      (signOneInput trivPrims inputC5 0 signer5).1 :=
  (C10_both_utxos trivPrims prevtx (some ⟨7, [9, 9]⟩) inputC5 0 signer5
    (by decide) (by decide)).1

end Firma

namespace Firma

/-! ### Claim C6 : the derived-pubkey guard -/

/-- After a successful input loop, every keypath entry (of the final inputs
it processed) whose fingerprint matches passed the derived-pubkey check. -/
theorem signLoop_ok_keys (p : Prims) :
    ∀ (L : List Input) (i : Nat) (s : PSBTSigner) (u : Unit)
      (s' : PSBTSigner), signLoop p L i s = (.ok u, s') →
    (∀ k inp, L.get? k = some inp →
      s.psbt.inputs.get? (i + k) = some inp) →
    ∀ k inp', k < L.length → s'.psbt.inputs.get? (i + k) = some inp' →
      ∀ e ∈ inp'.hd_keypaths, e.2.1 = p.fingerprintOf s.xprv →
        p.pubOf (derivePriv p s.xprv e.2.2) = e.1 := by
  intro L
  induction L with
  | nil =>
    intro i s u s' _ _ k inp' hk
    exact absurd hk (by simp)
  | cons inp rest ih =>
    intro i s u s' h hcouple k inp' hk hfin e he hf
    rw [signLoop] at h
    rcases h₀ : signOneInput p inp i s with ⟨r₀, s₁⟩
    rw [h₀] at h
    cases r₀ with
    | err m => exact PResult.noConfusion ((Prod.mk.injEq _ _ _ _ |>.mp h).1)
    | panic m => exact PResult.noConfusion ((Prod.mk.injEq _ _ _ _ |>.mp h).1)
    | ok u₀ =>
      have hp₁ := signOneInput_preserve p inp i s (.ok u₀) s₁ h₀
      have hpl := signLoop_preserve p rest (i + 1) s₁ (.ok u) s' h
      cases k with
      | zero =>
        have hfin₁ : s₁.psbt.inputs.get? i = some inp' := by
          rw [← hpl.2.2.2.2.2.2.1 i (Nat.lt_succ_self i)]
          simpa using hfin
        cases hc : classify p s.psbt.global.unsigned_tx inp i with
        | err m =>
          rw [signOneInput_classify_err p inp i s m hc] at h₀
          exact PResult.noConfusion ((Prod.mk.injEq _ _ _ _ |>.mp h₀).1)
        | panic m =>
          rw [signOneInput_classify_panic p inp i s m hc] at h₀
          exact PResult.noConfusion ((Prod.mk.injEq _ _ _ _ |>.mp h₀).1)
        | ok script =>
          rw [signOneInput_classify_ok p inp i s script hc] at h₀
          cases hlv : s.psbt.inputs.get? i with
          | none =>
            rw [sign_input_none p s script i hlv] at h₀
            exact PResult.noConfusion ((Prod.mk.injEq _ _ _ _ |>.mp h₀).1)
          | some inpL =>
            rcases hse : signEntries p s.xprv s.psbt.global.unsigned_tx
                inpL.non_witness_utxo.isNone inpL.witness_utxo
                inpL.sighash_type script i (p.fingerprintOf s.xprv)
                inpL.hd_keypaths (inpL.partial_sigs, s.signed_by)
              with ⟨r₁, Q, B⟩
            rw [sign_input_eq p s script i inpL hlv r₁ Q B hse] at h₀
            obtain ⟨h₀₁, h₀₂⟩ := Prod.mk.injEq _ _ _ _ |>.mp h₀
            have hs₁get : s₁.psbt.inputs.get? i =
                some { inpL with partial_sigs := Q } := by
              rw [← h₀₂]
              exact get?_set_self s.psbt.inputs i _
                (lt_of_get?_some s.psbt.inputs i _ hlv)
            have hinp' : inp' = { inpL with partial_sigs := Q } :=
              Option.some.inj (hfin₁.symm.trans hs₁get)
            have hr₁ : r₁ = .ok () := by
              cases r₁ with
              | ok u₂ => rfl
              | err m => exact PResult.noConfusion h₀₁
              | panic m => exact PResult.noConfusion h₀₁
            subst hr₁
            have hacts := signEntries_ok_acts p s.xprv
              s.psbt.global.unsigned_tx inpL.non_witness_utxo.isNone
              inpL.witness_utxo inpL.sighash_type script i
              (p.fingerprintOf s.xprv) inpL.hd_keypaths _ (Q, B) () hse
            have hmem : e ∈ inpL.hd_keypaths := by
              rw [hinp'] at he
              exact he
            exact actOk_key_ok p s.xprv s.psbt.global.unsigned_tx
              inpL.non_witness_utxo.isNone inpL.witness_utxo
              inpL.sighash_type script i (p.fingerprintOf s.xprv) e
              (hacts e hmem) hf
      | succ n =>
        have hcouple' : ∀ k₂ inp₂, rest.get? k₂ = some inp₂ →
            s₁.psbt.inputs.get? (i + 1 + k₂) = some inp₂ := by
          intro k₂ inp₂ hk₂
          rw [hp₁.2.2.2.2.2.2.1 (i + 1 + k₂) (by omega)]
          have := hcouple (k₂ + 1) inp₂ hk₂
          rwa [show i + (k₂ + 1) = i + 1 + k₂ by omega] at this
        have hfin' : s'.psbt.inputs.get? (i + 1 + n) = some inp' := by
          rwa [show i + 1 + n = i + (n + 1) by omega]
        have := ih (i + 1) s₁ u s' h hcouple' n inp'
          (Nat.lt_of_succ_lt_succ (by simpa using hk)) hfin' e he
        rw [hp₁.2.2.1] at this
        exact this hf

/-- C6: if `sign` succeeds, every keypath entry of the signed PSBT whose
stored fingerprint equals the signer's fingerprint has a public key equal to
the one derived along its stored path (first conjunct); and when the keypath
loop reaches an entry with matching fingerprint but mismatching derived key,
it fails with the derived-pubkey-mismatch error before inserting any
signature for that entry, leaving the state as it was (second conjunct). -/
theorem C6_derived_pubkey_guard :
    (∀ (p : Prims) (s : PSBTSigner) (r : SignResult) (s' : PSBTSigner),
      PSBTSigner.sign p s = (.ok r, s') →
      ∀ idx inp', s'.psbt.inputs.get? idx = some inp' →
      ∀ pk fing child, (pk, fing, child) ∈ inp'.hd_keypaths →
        fing = p.fingerprintOf s.xprv →
        p.pubOf (derivePriv p s.xprv child) = pk) ∧
    (∀ (p : Prims) (xprv : XPrv) (tx : Transaction) (isW : Bool)
      (wutxo : Option TxOut) (sighashT : Option Nat) (script : Script)
      (idx myFing : Nat) (st : List (List Nat × List Nat) × List Nat)
      (pk : List Nat) (fing : Nat) (child : List Nat) (rest : List HdEntry),
      fing = myFing → p.pubOf (derivePriv p xprv child) ≠ pk →
      signEntries p xprv tx isW wutxo sighashT script idx myFing
        ((pk, fing, child) :: rest) st =
        (.err ("pubkey derived and expected differs even if fingerprint matches!"),
         st)) := by
  constructor
  · intro p s r s' h idx inp' hfin pk fing child hmem hf
    rcases hinit : PSBTSigner.init_hd_keypath_if_absent p s with ⟨r₀, s₁⟩
    cases r₀ with
    | err m =>
      rw [sign_eq_init_fail p s m s₁ hinit] at h
      exact absurd ((Prod.mk.injEq _ _ _ _ |>.mp h).1)
        (fun hc => PResult.noConfusion hc)
    | panic m =>
      rw [sign_eq_init_crash p s m s₁ hinit] at h
      exact absurd ((Prod.mk.injEq _ _ _ _ |>.mp h).1)
        (fun hc => PResult.noConfusion hc)
    | ok a =>
      rcases hloop : signLoop p s₁.psbt.inputs 0 s₁ with ⟨r₁, s₂⟩
      rw [sign_eq_loop p s a s₁ r₁ s₂ hinit hloop] at h
      cases r₁ with
      | err m =>
        exact absurd ((Prod.mk.injEq _ _ _ _ |>.mp h).1)
          (fun hc => PResult.noConfusion hc)
      | panic m =>
        exact absurd ((Prod.mk.injEq _ _ _ _ |>.mp h).1)
          (fun hc => PResult.noConfusion hc)
      | ok u =>
        have hs' : s' = s₂ := ((Prod.mk.injEq _ _ _ _).mp h).2.symm
        subst hs'
        have hpl := signLoop_preserve p s₁.psbt.inputs 0 s₁ (.ok u) s' hloop
        have hx : s₁.xprv = s.xprv := (init_preserve p s (.ok a) s₁ hinit).1
        have hlt : idx < s₁.psbt.inputs.length := by
          rw [← hpl.2.2.2.2.2.1]
          exact lt_of_get?_some s'.psbt.inputs idx inp' hfin
        have := signLoop_ok_keys p s₁.psbt.inputs 0 s₁ u s' hloop
          (fun k inp hk => by simpa using hk) idx inp' hlt
          (by simpa using hfin) (pk, fing, child) hmem
        rw [hx] at this
        exact this hf
  · intro p xprv tx isW wutxo sighashT script idx myFing st pk fing child
      rest hf hne
    rw [signEntries, signEntry_eq_act]
    have hact : entryActOf p xprv tx isW wutxo sighashT script idx myFing
        (pk, fing, child) = .failErr
          ("pubkey derived and expected differs even if fingerprint matches!") := by
      simp [entryActOf, hf, Ne.symm hne]
    rw [hact]

/-- C6 witness: the first conjunct applied to the concrete successful run,
and the second conjunct applied to a tampered single-entry loop. -/
theorem C6_derived_pubkey_guard_witness :
    trivPrims.pubOf (derivePriv trivPrims xprv5 []) = K5 :=
  (C6_derived_pubkey_guard).1 trivPrims signer5 ⟨true, false⟩
    (PSBTSigner.sign trivPrims signer5).2 (by decide) 0
    { inputC5 with partial_sigs := [(K5, [0, 5, 1])] } (by decide)
    K5 5 [] (by decide) (by decide)

end Firma

namespace Firma

/-! ### Claim C4 machinery : settled states and second-run idempotence -/

theorem exists_get?_of_mem {α : Type} :
    ∀ (l : List α) (a : α), a ∈ l → ∃ n, l.get? n = some a := by
  intro l
  induction l with
  | nil => intro a ha; cases ha
  | cons x rest ih =>
    intro a ha
    rcases List.mem_cons.mp ha with rfl | ha'
    · exact ⟨0, rfl⟩
    · rcases ih a ha' with ⟨n, hn⟩
      exact ⟨n + 1, hn⟩

theorem get?_of_lt {α : Type} :
    ∀ (l : List α) (j : Nat), j < l.length → ∃ a, l.get? j = some a := by
  intro l
  induction l with
  | nil => intro j h; simp at h
  | cons x rest ih =>
    intro j h
    cases j with
    | zero => exact ⟨x, rfl⟩
    | succ n => exact ih n (Nat.succ_lt_succ_iff.mp h)

theorem any_eq_of_get? {α : Type} (pred : α → Bool) :
    ∀ (l₁ l₂ : List α), l₁.length = l₂.length →
    (∀ j a₁ a₂, l₁.get? j = some a₁ → l₂.get? j = some a₂ →
      pred a₁ = pred a₂) →
    l₁.any pred = l₂.any pred := by
  intro l₁
  induction l₁ with
  | nil =>
    intro l₂ hlen _
    cases l₂ with
    | nil => rfl
    | cons b r => simp at hlen
  | cons a rest ih =>
    intro l₂ hlen h
    cases l₂ with
    | nil => simp at hlen
    | cons b rest₂ =>
      simp only [List.any_cons]
      rw [h 0 a b rfl rfl,
        ih rest₂ (by simpa using hlen)
          (fun j a₁ a₂ h₁ h₂ => h (j + 1) a₁ a₂ h₁ h₂)]

theorem any_eq_false_iff {α : Type} (pred : α → Bool) :
    ∀ l : List α, l.any pred = false ↔ ∀ a ∈ l, pred a = false := by
  intro l
  induction l with
  | nil => simp
  | cons a rest ih => simp [List.any_cons]

/-- A state in which every input's loop iteration is a no-op. -/
def SettledState (p : Prims) (σ : PSBTSigner) : Prop :=
  ∀ k inp, σ.psbt.inputs.get? k = some inp →
    signOneInput p inp k σ = (.ok (), σ)

/-- The input loop over a settled state is a no-op. -/
theorem signLoop_settled (p : Prims) (σ : PSBTSigner)
    (hset : SettledState p σ) :
    ∀ (L : List Input) (i : Nat),
      (∀ k inp, L.get? k = some inp → σ.psbt.inputs.get? (i + k) = some inp) →
      signLoop p L i σ = (.ok (), σ) := by
  intro L
  induction L with
  | nil => intro i _; rfl
  | cons inp rest ih =>
    intro i hcouple
    have h0 : σ.psbt.inputs.get? i = some inp := by
      have := hcouple 0 inp rfl
      simpa using this
    rw [signLoop, hset i inp h0]
    exact ih (i + 1) (fun k inp₂ hk => by
      have := hcouple (k + 1) inp₂ hk
      rwa [show i + (k + 1) = i + 1 + k by omega] at this)

/-- After a successful input loop over inputs whose keypath maps have
distinct keys, the final state is settled: re-processing any of its inputs
changes nothing. -/
theorem signLoop_run_settled (p : Prims) :
    ∀ (L : List Input) (i : Nat) (s : PSBTSigner) (u : Unit)
      (s' : PSBTSigner), signLoop p L i s = (.ok u, s') →
    (∀ k inp, L.get? k = some inp → s.psbt.inputs.get? (i + k) = some inp) →
    (∀ k inp, s.psbt.inputs.get? k = some inp →
      (inp.hd_keypaths.map Prod.fst).Nodup) →
    ∀ k inp', k < L.length → s'.psbt.inputs.get? (i + k) = some inp' →
      signOneInput p inp' (i + k) s' = (.ok (), s') := by
  intro L
  induction L with
  | nil =>
    intro i s u s' _ _ _ k inp' hk
    exact absurd hk (by simp)
  | cons inp rest ih =>
    intro i s u s' h hcouple hnd k inp' hk hfin
    rw [signLoop] at h
    rcases h₀ : signOneInput p inp i s with ⟨r₀, s₁⟩
    rw [h₀] at h
    cases r₀ with
    | err m =>
      exact absurd ((Prod.mk.injEq _ _ _ _ |>.mp h).1)
        (fun hc => PResult.noConfusion hc)
    | panic m =>
      exact absurd ((Prod.mk.injEq _ _ _ _ |>.mp h).1)
        (fun hc => PResult.noConfusion hc)
    | ok u₀ =>
      have hp₁ := signOneInput_preserve p inp i s (.ok u₀) s₁ h₀
      have hpl := signLoop_preserve p rest (i + 1) s₁ (.ok u) s' h
      have hs0 : s.psbt.inputs.get? i = some inp := by
        have := hcouple 0 inp rfl
        simpa using this
      cases k with
      | zero =>
        cases hc : classify p s.psbt.global.unsigned_tx inp i with
        | err m =>
          rw [signOneInput_classify_err p inp i s m hc] at h₀
          exact absurd ((Prod.mk.injEq _ _ _ _ |>.mp h₀).1)
            (fun hc' => PResult.noConfusion hc')
        | panic m =>
          rw [signOneInput_classify_panic p inp i s m hc] at h₀
          exact absurd ((Prod.mk.injEq _ _ _ _ |>.mp h₀).1)
            (fun hc' => PResult.noConfusion hc')
        | ok script =>
          rw [signOneInput_classify_ok p inp i s script hc] at h₀
          rcases hse : signEntries p s.xprv s.psbt.global.unsigned_tx
              inp.non_witness_utxo.isNone inp.witness_utxo inp.sighash_type
              script i (p.fingerprintOf s.xprv) inp.hd_keypaths
              (inp.partial_sigs, s.signed_by) with ⟨rE, Q, B⟩
          rw [sign_input_eq p s script i inp hs0 rE Q B hse] at h₀
          obtain ⟨hE1, hE2⟩ := Prod.mk.injEq _ _ _ _ |>.mp h₀
          rw [hE1] at hse
          have hs₁get : s₁.psbt.inputs.get? i =
              some { inp with partial_sigs := Q } := by
            rw [← hE2]
            exact get?_set_self s.psbt.inputs i _
              (lt_of_get?_some s.psbt.inputs i _ hs0)
          have hfin' : s'.psbt.inputs.get? i =
              some { inp with partial_sigs := Q } := by
            rw [hpl.2.2.2.2.2.2.1 i (Nat.lt_succ_self i)]
            exact hs₁get
          have hinp' : inp' = { inp with partial_sigs := Q } :=
            Option.some.inj ((by simpa using hfin : s'.psbt.inputs.get? i =
              some inp').symm.trans hfin')
          have hacts := signEntries_ok_acts p s.xprv
            s.psbt.global.unsigned_tx inp.non_witness_utxo.isNone
            inp.witness_utxo inp.sighash_type script i
            (p.fingerprintOf s.xprv) inp.hd_keypaths _ (Q, B) u₀ hse
          have hsat := signEntries_ok_saturated p s.xprv
            s.psbt.global.unsigned_tx inp.non_witness_utxo.isNone
            inp.witness_utxo inp.sighash_type script i
            (p.fingerprintOf s.xprv) inp.hd_keypaths _ (Q, B) u₀ hse
            (hnd i inp hs0)
          have hsbyB : ∀ f, f ∈ B → f ∈ s'.signed_by := by
            intro f hf
            apply hpl.2.2.2.2.2.2.2.1 f
            rw [← hE2]
            exact hf
          have hE3 := signEntries_settled p s.xprv
            s.psbt.global.unsigned_tx inp.non_witness_utxo.isNone
            inp.witness_utxo inp.sighash_type script i
            (p.fingerprintOf s.xprv) inp.hd_keypaths (Q, s'.signed_by)
            hacts
            (fun e he pk fg sg hact =>
              ⟨(hsat e he pk fg sg hact).1,
               hsbyB fg (hsat e he pk fg sg hact).2⟩)
          have hg : s'.psbt.global = s.psbt.global := hpl.1.trans hp₁.1
          have hx : s'.xprv = s.xprv := hpl.2.2.1.trans hp₁.2.2.1
          have hc₂ : classify p s'.psbt.global.unsigned_tx
              { inp with partial_sigs := Q } i = .ok script := by
            rw [hg]
            exact (classify_core p s.psbt.global.unsigned_tx inp i Q
              inp.hd_keypaths).trans hc
          have hse₂ : signEntries p s'.xprv s'.psbt.global.unsigned_tx
              (Input.non_witness_utxo { inp with partial_sigs := Q }).isNone
              (Input.witness_utxo { inp with partial_sigs := Q })
              (Input.sighash_type { inp with partial_sigs := Q }) script i
              (p.fingerprintOf s'.xprv)
              (Input.hd_keypaths { inp with partial_sigs := Q })
              ((Input.partial_sigs { inp with partial_sigs := Q }),
                s'.signed_by) = (.ok (), (Q, s'.signed_by)) := by
            rw [hx, hg]
            exact hE3
          have hstep := sign_input_eq p s' script i
            { inp with partial_sigs := Q } hfin' (.ok ()) Q s'.signed_by hse₂
          have hS : s'.psbt.inputs.set i
              { inp with partial_sigs := Q } = s'.psbt.inputs :=
            set_of_get? s'.psbt.inputs i _ hfin'
          have hsi : setInput s' i { inp with partial_sigs := Q } = s' := by
            unfold setInput
            rw [hS]
          have hstate :
              ({ setInput s' i { { inp with partial_sigs := Q } with
                  partial_sigs := Q } with signed_by := s'.signed_by }) = s' := by
            have hr : ({ { inp with partial_sigs := Q } with
                partial_sigs := Q } : Input) = { inp with partial_sigs := Q } :=
              rfl
            rw [hr, hsi]
          simp only [Nat.add_zero] at hfin ⊢
          rw [hinp']
          rw [signOneInput_classify_ok p { inp with partial_sigs := Q } i s'
            script hc₂, hstep]
          exact congrArg (Prod.mk (PResult.ok ())) hstate
      | succ n =>
        have hcouple' : ∀ k₂ inp₂, rest.get? k₂ = some inp₂ →
            s₁.psbt.inputs.get? (i + 1 + k₂) = some inp₂ := by
          intro k₂ inp₂ hk₂
          rw [hp₁.2.2.2.2.2.2.1 (i + 1 + k₂) (by omega)]
          have := hcouple (k₂ + 1) inp₂ hk₂
          rwa [show i + (k₂ + 1) = i + 1 + k₂ by omega] at this
        have hnd₁ : ∀ k₂ inp₂, s₁.psbt.inputs.get? k₂ = some inp₂ →
            (inp₂.hd_keypaths.map Prod.fst).Nodup := by
          intro k₂ inp₂ hk₂
          by_cases hki : k₂ = i
          · subst hki
            rcases hp₁.2.2.2.2.2.2.2.2 inp hs0 with ⟨Q, hQ, _⟩
            have : inp₂ = { inp with partial_sigs := Q } :=
              Option.some.inj (hk₂.symm.trans hQ)
            rw [this]
            exact hnd k₂ inp hs0
          · rw [hp₁.2.2.2.2.2.2.1 k₂ hki] at hk₂
            exact hnd k₂ inp₂ hk₂
        have hfin' : s'.psbt.inputs.get? (i + 1 + n) = some inp' := by
          rwa [show i + 1 + n = i + (n + 1) by omega]
        have := ih (i + 1) s₁ u s' h hcouple' hnd₁ n inp'
          (Nat.lt_of_succ_lt_succ (by simpa using hk)) hfin'
        rwa [show i + 1 + n = i + (n + 1) by omega] at this

end Firma

namespace Firma

/-- The final state of a successful `sign` run (over a PSBT whose keypath
maps have distinct keys) is settled. -/
theorem sign_settled (p : Prims) (s : PSBTSigner) (a : Bool)
    (s₁ : PSBTSigner) (u : Unit) (s₂ : PSBTSigner)
    (hinit : PSBTSigner.init_hd_keypath_if_absent p s = (.ok a, s₁))
    (hloop : signLoop p s₁.psbt.inputs 0 s₁ = (.ok u, s₂))
    (hwf : ∀ inp ∈ s.psbt.inputs, (inp.hd_keypaths.map Prod.fst).Nodup) :
    SettledState p s₂ := by
  intro k inp hk
  have hpi := init_preserve p s (.ok a) s₁ hinit
  have hpl := signLoop_preserve p s₁.psbt.inputs 0 s₁ (.ok u) s₂ hloop
  have hnd₁ : ∀ j inp₂, s₁.psbt.inputs.get? j = some inp₂ →
      (inp₂.hd_keypaths.map Prod.fst).Nodup := by
    intro j inp₂ hj
    have hjlt : j < s.psbt.inputs.length := by
      rw [← hpi.2.2.2.2.2.1]
      exact lt_of_get?_some _ j _ hj
    rcases get?_of_lt s.psbt.inputs j hjlt with ⟨inp₀, h₀⟩
    rcases hpi.2.2.2.2.2.2.2.1 j inp₀ h₀ with ⟨H, hH, _, hNd⟩
    have heq : inp₂ = { inp₀ with hd_keypaths := H } :=
      Option.some.inj (hj.symm.trans hH)
    rw [heq]
    exact hNd (hwf inp₀ (List.get?_mem h₀))
  have hklt : k < s₁.psbt.inputs.length := by
    rw [← hpl.2.2.2.2.2.1]
    exact lt_of_get?_some _ k _ hk
  have := signLoop_run_settled p s₁.psbt.inputs 0 s₁ u s₂ hloop
    (fun k₂ inp₂ hk₂ => by simpa using hk₂) hnd₁ k inp hklt
    (by simpa using hk)
  simpa using this

end Firma

namespace Firma

/-- Running the keypath pre-pass a second time, after a first `sign` call
whose loop only added partial signatures, leaves the PSBT untouched. -/
theorem init_second_run (p : Prims) (s σ s₁ : PSBTSigner) (a : Bool)
    (hinit : PSBTSigner.init_hd_keypath_if_absent p s = (.ok a, σ))
    (hlen : s₁.psbt.inputs.length = σ.psbt.inputs.length)
    (hrel : ∀ j inp₀, σ.psbt.inputs.get? j = some inp₀ →
      ∃ Q, s₁.psbt.inputs.get? j = some { inp₀ with partial_sigs := Q })
    (houts : s₁.psbt.outputs = σ.psbt.outputs)
    (hx : s₁.xprv = s.xprv) (hder : s₁.derivations = s.derivations) :
    ∃ b, PSBTSigner.init_hd_keypath_if_absent p s₁ = (.ok b, s₁) ∧
      (((s₁.psbt.inputs.any fun i => i.hd_keypaths.isEmpty) ||
        (s₁.psbt.outputs.any fun o => o.hd_keypaths.isEmpty)) = false →
        b = false) := by
  cases htr₂ : ((s₁.psbt.inputs.any fun i => i.hd_keypaths.isEmpty) ||
      (s₁.psbt.outputs.any fun o => o.hd_keypaths.isEmpty)) with
  | false => exact ⟨false, init_not_triggered p s₁ htr₂, fun _ => rfl⟩
  | true =>
    cases htr₁ : ((s.psbt.inputs.any fun i => i.hd_keypaths.isEmpty) ||
        (s.psbt.outputs.any fun o => o.hd_keypaths.isEmpty)) with
    | false =>
      exfalso
      rw [init_not_triggered p s htr₁] at hinit
      have hσ : σ = s := ((Prod.mk.injEq _ _ _ _).mp hinit).2.symm
      subst hσ
      have e_in : (s₁.psbt.inputs.any fun i => i.hd_keypaths.isEmpty) =
          (σ.psbt.inputs.any fun i => i.hd_keypaths.isEmpty) := by
        apply any_eq_of_get? _ s₁.psbt.inputs σ.psbt.inputs hlen
        intro j a₁ a₂ h₁ h₂
        rcases hrel j a₂ h₂ with ⟨Q, hQ⟩
        rw [Option.some.inj (h₁.symm.trans hQ)]
      have e_out : (s₁.psbt.outputs.any fun o => o.hd_keypaths.isEmpty) =
          (σ.psbt.outputs.any fun o => o.hd_keypaths.isEmpty) := by
        rw [houts]
      rw [e_in, e_out] at htr₂
      exact Bool.noConfusion (htr₁.symm.trans htr₂)
    | true =>
      by_cases hd2 : 2 ^ 31 ≤ s.derivations
      · rw [init_err p s htr₁ hd2] at hinit
        exact absurd ((Prod.mk.injEq _ _ _ _).mp hinit).1
          (fun hc => PResult.noConfusion hc)
      · rcases hI : addToInputs (buildKeys p s.xprv s.derivations)
          s.psbt.inputs false with ⟨I₁, a₁⟩
        rcases hO : addToOutputs (buildKeys p s.xprv s.derivations)
          s.psbt.outputs a₁ with ⟨O₁, a₂⟩
        rw [init_triggered p s I₁ a₁ O₁ a₂ htr₁ hd2 hI hO] at hinit
        have hσ : σ = { s with psbt :=
            { s.psbt with inputs := I₁, outputs := O₁ } } :=
          ((Prod.mk.injEq _ _ _ _).mp hinit).2.symm
        subst hσ
        have hkeys₂ : buildKeys p s₁.xprv s₁.derivations =
            buildKeys p s.xprv s.derivations := by rw [hx, hder]
        have hlenI : I₁.length = s.psbt.inputs.length := by
          have h1 := addToInputs_length (buildKeys p s.xprv s.derivations)
            s.psbt.inputs false
          rw [hI] at h1
          exact h1
        have hlenO : O₁.length = s.psbt.outputs.length := by
          have h1 := addToOutputs_length (buildKeys p s.xprv s.derivations)
            s.psbt.outputs a₁
          rw [hO] at h1
          exact h1
        have hcondI : ∀ inp' ∈ s₁.psbt.inputs, ∀ ws,
            inp'.witness_script = some ws → ∀ k v, k ∈ extractPubKeys ws →
            alistLookup k (buildKeys p s.xprv s.derivations) = some v →
            alistLookup k inp'.hd_keypaths = some v := by
          intro inp' hmem ws hws k v hk hkv
          rcases exists_get?_of_mem _ inp' hmem with ⟨n, hn⟩
          have hnlt : n < s.psbt.inputs.length := by
            have h1 : n < s₁.psbt.inputs.length := lt_of_get?_some _ n _ hn
            rw [hlen] at h1
            rw [← hlenI]
            exact h1
          rcases get?_of_lt s.psbt.inputs n hnlt with ⟨sn, hsn⟩
          have hσn : ({ s with psbt :=
              { s.psbt with inputs := I₁, outputs := O₁ } } :
              PSBTSigner).psbt.inputs.get? n =
              some (deducedInput (buildKeys p s.xprv s.derivations) sn) := by
            show I₁.get? n = _
            have h1 := addToInputs_get (buildKeys p s.xprv s.derivations)
              s.psbt.inputs false n sn hsn
            rw [hI] at h1
            exact h1
          rcases hrel n _ hσn with ⟨Q, hQ⟩
          have hinp' : inp' =
              { (deducedInput (buildKeys p s.xprv s.derivations) sn) with
                partial_sigs := Q } :=
            Option.some.inj (hn.symm.trans hQ)
          cases hw0 : sn.witness_script with
          | none =>
            exfalso
            have h1 : inp'.witness_script = (deducedInput
                (buildKeys p s.xprv s.derivations) sn).witness_script := by
              rw [hinp']
            have h2 : (deducedInput (buildKeys p s.xprv s.derivations)
                sn).witness_script = none := by
              simp only [deducedInput, hw0]
            exact Option.noConfusion ((hws.symm.trans h1).trans h2)
          | some ws₀ =>
            have h1 : inp'.witness_script = (deducedInput
                (buildKeys p s.xprv s.derivations) sn).witness_script := by
              rw [hinp']
            have h2 : (deducedInput (buildKeys p s.xprv s.derivations)
                sn).witness_script = some ws₀ := by
              simp only [deducedInput, hw0]
            have hwse : ws = ws₀ :=
              Option.some.inj ((hws.symm.trans h1).trans h2)
            have h3 : inp'.hd_keypaths = (deducedInput
                (buildKeys p s.xprv s.derivations) sn).hd_keypaths := by
              rw [hinp']
            have h4 : (deducedInput (buildKeys p s.xprv s.derivations)
                sn).hd_keypaths = (addKeysLoop
                (buildKeys p s.xprv s.derivations) (extractPubKeys ws₀)
                sn.hd_keypaths false).1 := by
              simp only [deducedInput, hw0]
            rw [h3, h4]
            exact addKeysLoop_sat (buildKeys p s.xprv s.derivations)
              (extractPubKeys ws₀) sn.hd_keypaths false k v
              (by rw [← hwse]; exact hk) hkv
        have hcondO : ∀ out' ∈ s₁.psbt.outputs, ∀ ws,
            out'.witness_script = some ws → ∀ k v, k ∈ extractPubKeys ws →
            alistLookup k (buildKeys p s.xprv s.derivations) = some v →
            alistLookup k out'.hd_keypaths = some v := by
          intro out' hmem ws hws k v hk hkv
          have hmem' : out' ∈ O₁ := by
            rw [houts] at hmem
            exact hmem
          rcases exists_get?_of_mem _ out' hmem' with ⟨n, hn⟩
          have hnlt : n < s.psbt.outputs.length := by
            rw [← hlenO]
            exact lt_of_get?_some _ n _ hn
          rcases get?_of_lt s.psbt.outputs n hnlt with ⟨o₀, ho₀⟩
          have hgn : O₁.get? n =
              some (deducedOutput (buildKeys p s.xprv s.derivations) o₀) := by
            have h1 := addToOutputs_get (buildKeys p s.xprv s.derivations)
              s.psbt.outputs a₁ n o₀ ho₀
            rw [hO] at h1
            exact h1
          have hout' : out' =
              deducedOutput (buildKeys p s.xprv s.derivations) o₀ :=
            Option.some.inj (hn.symm.trans hgn)
          cases hw0 : o₀.witness_script with
          | none =>
            exfalso
            have h2 : (deducedOutput (buildKeys p s.xprv s.derivations)
                o₀).witness_script = none := by
              simp only [deducedOutput, hw0]
            rw [hout'] at hws
            exact Option.noConfusion (hws.symm.trans h2)
          | some ws₀ =>
            have h2 : (deducedOutput (buildKeys p s.xprv s.derivations)
                o₀).witness_script = some ws₀ := by
              simp only [deducedOutput, hw0]
            have hwse : ws = ws₀ := by
              rw [hout'] at hws
              exact Option.some.inj (hws.symm.trans h2)
            have h4 : (deducedOutput (buildKeys p s.xprv s.derivations)
                o₀).hd_keypaths = (addKeysLoop
                (buildKeys p s.xprv s.derivations) (extractPubKeys ws₀)
                o₀.hd_keypaths false).1 := by
              simp only [deducedOutput, hw0]
            rw [hout', h4]
            exact addKeysLoop_sat (buildKeys p s.xprv s.derivations)
              (extractPubKeys ws₀) o₀.hd_keypaths false k v
              (by rw [← hwse]; exact hk) hkv
        rcases hI₂ : addToInputs (buildKeys p s.xprv s.derivations)
          s₁.psbt.inputs false with ⟨I₂, b₁⟩
        have hI₂eq : I₂ = s₁.psbt.inputs := by
          have h1 := addToInputs_noop (buildKeys p s.xprv s.derivations)
            s₁.psbt.inputs false hcondI
          rw [hI₂] at h1
          exact h1
        rcases hO₂ : addToOutputs (buildKeys p s.xprv s.derivations)
          s₁.psbt.outputs b₁ with ⟨O₂, b₂⟩
        have hO₂eq : O₂ = s₁.psbt.outputs := by
          have h1 := addToOutputs_noop (buildKeys p s.xprv s.derivations)
            s₁.psbt.outputs b₁ hcondO
          rw [hO₂] at h1
          exact h1
        have hder₂ : ¬ 2 ^ 31 ≤ s₁.derivations := by
          rw [hder]
          exact hd2
        have hI₂' : addToInputs (buildKeys p s₁.xprv s₁.derivations)
            s₁.psbt.inputs false = (I₂, b₁) := by
          rw [hkeys₂]
          exact hI₂
        have hO₂' : addToOutputs (buildKeys p s₁.xprv s₁.derivations)
            s₁.psbt.outputs b₁ = (O₂, b₂) := by
          rw [hkeys₂]
          exact hO₂
        have hinit₂ := init_triggered p s₁ I₂ b₁ O₂ b₂ htr₂ hder₂ hI₂' hO₂'
        rw [hI₂eq, hO₂eq] at hinit₂
        have hfix : ({ s₁ with psbt := { s₁.psbt with
            inputs := s₁.psbt.inputs, outputs := s₁.psbt.outputs } } :
            PSBTSigner) = s₁ := rfl
        rw [hfix] at hinit₂
        exact ⟨b₂, hinit₂, fun hfalse => Bool.noConfusion hfalse⟩

end Firma

namespace Firma

/-- C4 (amended): running `sign` twice in sequence, starting from a PSBT
whose keypath maps have pairwise-distinct keys, leaves the state of the
first run unchanged: the second run succeeds, reports `signed = false`,
and returns exactly the first run's signer state.  However, its
`added_paths` flag is NOT always false: the keypath pre-pass re-fires
whenever some input or output still has an empty `hd_keypaths` map, and
re-inserting the derived keys into a witness-script-bearing input or
output can report `added_paths = true` again.  If no keypath map of the
first run's result is empty, the second run's flag is guaranteed
false. -/
theorem C4_amended (p : Prims) (s : PSBTSigner) (r₁ : SignResult)
    (s₁ : PSBTSigner)
    (h : PSBTSigner.sign p s = (.ok r₁, s₁))
    (hwf : ∀ inp ∈ s.psbt.inputs, (inp.hd_keypaths.map Prod.fst).Nodup) :
    ∃ a₂, PSBTSigner.sign p s₁ = (.ok ⟨false, a₂⟩, s₁) ∧
      (((s₁.psbt.inputs.any fun i => i.hd_keypaths.isEmpty) ||
        (s₁.psbt.outputs.any fun o => o.hd_keypaths.isEmpty)) = false →
        a₂ = false) := by
  rcases hinit : PSBTSigner.init_hd_keypath_if_absent p s with ⟨ri, σ⟩
  cases ri with
  | err m =>
    rw [sign_eq_init_fail p s m σ hinit] at h
    exact absurd ((Prod.mk.injEq _ _ _ _).mp h).1
      (fun hc => PResult.noConfusion hc)
  | panic m =>
    rw [sign_eq_init_crash p s m σ hinit] at h
    exact absurd ((Prod.mk.injEq _ _ _ _).mp h).1
      (fun hc => PResult.noConfusion hc)
  | ok a =>
    rcases hloop : signLoop p σ.psbt.inputs 0 σ with ⟨rl, s₂⟩
    rw [sign_eq_loop p s a σ rl s₂ hinit hloop] at h
    cases rl with
    | err m =>
      have h' : ((PResult.err m : PResult SignResult), s₂) = (.ok r₁, s₁) := h
      exact absurd ((Prod.mk.injEq _ _ _ _).mp h').1
        (fun hc => PResult.noConfusion hc)
    | panic m =>
      have h' : ((PResult.panic m : PResult SignResult), s₂) =
          (.ok r₁, s₁) := h
      exact absurd ((Prod.mk.injEq _ _ _ _).mp h').1
        (fun hc => PResult.noConfusion hc)
    | ok u =>
      have h' : ((PResult.ok (SignResult.mk
          (decide (s₂.psbt.inputs ≠ s.psbt.inputs)) a) :
          PResult SignResult), s₂) = (.ok r₁, s₁) := h
      have hs₁ : s₂ = s₁ := ((Prod.mk.injEq _ _ _ _).mp h').2
      have hset : SettledState p s₂ := sign_settled p s a σ u s₂ hinit hloop hwf
      have hpi := init_preserve p s (.ok a) σ hinit
      have hpl := signLoop_preserve p σ.psbt.inputs 0 σ (.ok u) s₂ hloop
      have hlen2 : s₂.psbt.inputs.length = σ.psbt.inputs.length :=
        hpl.2.2.2.2.2.1
      have hrel : ∀ j inp₀, σ.psbt.inputs.get? j = some inp₀ →
          ∃ Q, s₂.psbt.inputs.get? j =
            some { inp₀ with partial_sigs := Q } := by
        intro j inp₀ h₀
        rcases hpl.2.2.2.2.2.2.2.2 j inp₀ h₀ with ⟨Q, hQ, _⟩
        exact ⟨Q, hQ⟩
      have houts : s₂.psbt.outputs = σ.psbt.outputs := hpl.2.1
      have hx2 : s₂.xprv = s.xprv := hpl.2.2.1.trans hpi.1
      have hder2 : s₂.derivations = s.derivations :=
        hpl.2.2.2.2.1.trans hpi.2.2.1
      rcases init_second_run p s σ s₂ a hinit hlen2 hrel houts hx2 hder2
        with ⟨b, hinit₂, himp⟩
      have hloop₂ : signLoop p s₂.psbt.inputs 0 s₂ = (.ok (), s₂) :=
        signLoop_settled p s₂ hset s₂.psbt.inputs 0
          (fun k inp hk => by simpa using hk)
      have hfin : PSBTSigner.sign p s₂ = (.ok (SignResult.mk
          (decide (s₂.psbt.inputs ≠ s₂.psbt.inputs)) b), s₂) :=
        sign_eq_loop p s₂ b s₂ (.ok ()) s₂ hinit₂ hloop₂
      have hdec : decide (s₂.psbt.inputs ≠ s₂.psbt.inputs) = false :=
        decide_eq_false (fun hc => hc rfl)
      rw [hdec] at hfin
      rw [← hs₁]
      exact ⟨b, hfin, himp⟩

/-- C4, counterexample to the claimed `added_paths = false` on the second
run: on `signer4` the first `sign` run returns
`{ signed := true, added_paths := true }`, and a second run on the
resulting state returns `{ signed := false, added_paths := true }` — the
pre-pass re-fires because one input's keypath map is still empty, so the
second run's `added_paths` flag is `true`, not `false`. -/
theorem C4_counterexample :
    (PSBTSigner.sign trivPrims signer4).1 =
      .ok { signed := true, added_paths := true } ∧
    (PSBTSigner.sign trivPrims
      (PSBTSigner.sign trivPrims signer4).2).1 =
      .ok { signed := false, added_paths := true } := by
  decide

/-- Witness for `C4_amended` at the concrete fixture `signer4`. -/
theorem C4_amended_witness :
    ∃ a₂, PSBTSigner.sign trivPrims (PSBTSigner.sign trivPrims signer4).2 =
      (.ok ⟨false, a₂⟩, (PSBTSigner.sign trivPrims signer4).2) ∧
      ((((PSBTSigner.sign trivPrims signer4).2.psbt.inputs.any
          fun i => i.hd_keypaths.isEmpty) ||
        ((PSBTSigner.sign trivPrims signer4).2.psbt.outputs.any
          fun o => o.hd_keypaths.isEmpty)) = false → a₂ = false) :=
  C4_amended trivPrims signer4 { signed := true, added_paths := true }
    (PSBTSigner.sign trivPrims signer4).2 (by rfl) (by decide)

end Firma
